import Mathlib

/-!
Reentrant random number generator of gcompat (`libgcompat/random_r.c`) and
the checked wide-copy wrappers (`libgcompat/memory.c`)

A shallow embedding of `srandom_r`, `initstate_r`, `setstate_r` and `random_r`
together with their helpers `lcg31`, `lcg64`, `savestate_r` and `loadstate_r`.

Conventions of the embedding.

* The caller's buffers live in a heap of 32-bit cells addressed by *word* index
  (`Int`); a `char *state` that is 4-byte aligned is the word address of its
  first cell, so `(int32_t *)state + 1` is `state + 1`.
* A cell holds an `int32_t`, kept as the signed value it denotes (`Int`).
  `toU32` gives the two's-complement bit pattern of a signed value and `toS32`
  the signed value of a bit pattern; unsigned quantities (`uint32_t`,
  `uint64_t`, `unsigned`, `size_t`) are `Nat`.
* The fields `n`, `i`, `j` of `struct random_data` are C `int`s, kept as `Int`.
* Signed arithmetic that leaves the 32-bit range wraps (two's complement), and
  `>>` on a signed operand is the arithmetic shift, as on every compiler the
  library is built with.
* A pointer argument that the code tests against `NULL` is an `Option`.
-/

namespace Gcompat

/-! ## Machine integers -/

/-- Bit pattern (an unsigned 32-bit number) of a signed value: the conversion
`int32_t -> uint32_t`. -/
def toU32 (v : Int) : Nat := (v % 4294967296).toNat

/-- Signed value of the low 32 bits of a number: the conversion to `int32_t`. -/
def toS32 (w : Nat) : Int :=
  if w % 4294967296 < 2147483648 then ((w % 4294967296 : Nat) : Int)
  else ((w % 4294967296 : Nat) : Int) - 4294967296

/-- Conversion of a wider signed value to `int32_t` (wraps). -/
def wrap32 (v : Int) : Int := toS32 (toU32 v)

/-- The C expression `a << k` on `int`. -/
def shl32 (a : Int) (k : Nat) : Int := toS32 (toU32 a <<< k)

/-- The C expression `a >> k` on a signed operand (arithmetic shift). -/
def sar (a : Int) (k : Nat) : Int := a >>> k

/-- The C expression `a | b` on `int`. -/
def or32 (a b : Int) : Int := toS32 (toU32 a ||| toU32 b)

/-- The C expression `a & b` on `int`. -/
def and32 (a b : Int) : Int := toS32 (toU32 a &&& toU32 b)

/-! ## Data model -/

/-- The record `struct random_data`; only the fields the code uses. `x` is the
word address of table slot 0. -/
structure random_data where
  x : Int
  n : Int
  i : Int
  j : Int
deriving DecidableEq, Repr

/-- Heap of `int32_t` cells, by word address. -/
abbrev Mem := Int → Int

/-- The store `p[0] = v` at word address `a`. -/
def Mem.write (m : Mem) (a : Int) (v : Int) : Mem :=
  fun b => if b = a then v else m b

/-- Everything outside the record that the functions touch: the heap and
`errno`. -/
structure World where
  mem : Mem
  errno : Int

/-- Modelled from the spec: the single error kind `InvalidArgument`. The code
names it `EINVAL`, a constant of `<errno.h>`, which is not among the sources;
22 is its value on Linux. -/
def EINVAL : Int := 22

/-- What a call leaves behind: the returned `int`, the record and the world. -/
structure Outcome where
  ret : Int
  buf : random_data
  world : World

/-! ## The helpers -/

/-- Source `lcg31`: `(1103515245*x + 12345) & 0x7fffffff` in `uint32_t`. -/
def lcg31 (x : Nat) : Nat :=
  ((1103515245 * x + 12345) % 4294967296) &&& 0x7fffffff

/-- Source `lcg64`: `6364136223846793005ull*x + 1` in `uint64_t`. -/
def lcg64 (x : Nat) : Nat :=
  (6364136223846793005 * x + 1) % 18446744073709551616

/-- Source `savestate_r`: `buf->x[-1] = (buf->n<<16)|(buf->i<<8)|buf->j`. -/
def savestate_r (buf : random_data) (w : World) : World :=
  let v := or32 (or32 (shl32 buf.n 16) (shl32 buf.i 8)) buf.j
  { w with mem := w.mem.write (buf.x - 1) v }

/-- Source `loadstate_r`: binds the table one word past `state` and decodes
`n`, `i`, `j` from the word before the table. -/
def loadstate_r (state : Int) (buf : random_data) (w : World) : random_data :=
  let x := state + 1
  { buf with
    x := x
    n := sar (w.mem (x - 1)) 16
    i := and32 (sar (w.mem (x - 1)) 8) 0xff
    j := and32 (w.mem (x - 1)) 0xff }

/-! ## `srandom_r` -/

/-- The loop `for (k = 0; k < buf->n; k++) { s = lcg64(s); buf->x[k] = s>>32; }`
of `srandom_r`, entered at index `k` with `r` iterations left. -/
def srandom_loop (x : Int) : Nat → Int → Nat → Mem → Mem
  | 0, _, _, m => m
  | r + 1, k, s, m =>
    let s1 := lcg64 s
    srandom_loop x r (k + 1) s1 (m.write (x + k) (toS32 (s1 >>> 32)))

/-- Source `srandom_r` once `buf` is known to be present. The loop runs for
`k = 0, ..., n-1`, that is `n.toNat` times. -/
def srandom_r_present (seed : Nat) (buf : random_data) (w : World) : Outcome :=
  let s : Nat := seed
  if buf.n > 63 then
    { ret := -1, buf := buf, world := w }
  else if buf.n = 0 then
    { ret := 0, buf := buf, world := { w with mem := w.mem.write buf.x (toS32 s) } }
  else
    let buf1 := { buf with i := if buf.n = 31 ∨ buf.n = 7 then 3 else 1 }
    let buf2 := { buf1 with j := 0 }
    let m1 := srandom_loop buf2.x buf2.n.toNat 0 s w.mem
    let m2 := m1.write buf2.x (or32 (m1 buf2.x) 1)
    { ret := 0, buf := buf2, world := { w with mem := m2 } }

/-- Source `srandom_r`. On an absent handle it returns -1 and touches nothing;
the record of the outcome is then `none`. -/
def srandom_r (seed : Nat) (buf : Option random_data) (w : World) :
    Int × Option random_data × World :=
  match buf with
  | none => (-1, none, w)
  | some b =>
    let o := srandom_r_present seed b w
    (o.ret, some o.buf, o.world)

/-! ## `initstate_r` and `setstate_r` -/

/-- Source `initstate_r`, for a present record `buf` (the code dereferences it
without a test) and a buffer at word address `state`. -/
def initstate_r (seed : Nat) (state : Int) (size : Nat) (buf : random_data)
    (w : World) : Outcome :=
  if size < 8 then
    { ret := -1, buf := buf, world := { w with errno := EINVAL } }
  else
    let w1 := savestate_r buf w
    let buf1 : random_data :=
      if size < 32 then { buf with n := 0 }
      else if size < 64 then { buf with n := 7 }
      else if size < 128 then { buf with n := 15 }
      else if size < 256 then { buf with n := 31 }
      else { buf with n := 63 }
    let buf2 := { buf1 with x := state + 1 }
    let o := srandom_r_present seed buf2 w1
    let w3 := savestate_r o.buf o.world
    { ret := 0, buf := o.buf, world := w3 }

/-- Source `setstate_r`; `state` and `buf` may be absent. -/
def setstate_r (state : Option Int) (buf : Option random_data) (w : World) :
    Int × Option random_data × World :=
  match state, buf with
  | some st, some b =>
    let w1 := savestate_r b w
    (0, some (loadstate_r st b w1), w1)
  | _, _ => (-1, buf, { w with errno := EINVAL })

/-! ## `random_r` -/

/-- What `random_r` leaves behind; `result` is the content of the output slot. -/
structure StepOutcome where
  ret : Int
  result : Option Int
  buf : Option random_data
  world : World

/-- Source `random_r` once both pointers are known to be present: the new
record, the new heap and the `long k` that is stored through `result`. -/
def random_r_present (buf : random_data) (m : Mem) : random_data × Mem × Int :=
  if buf.n = 0 then
    let v := toS32 (lcg31 (toU32 (m buf.x)))
    (buf, m.write buf.x v, v)
  else
    let m1 := m.write (buf.x + buf.i) (wrap32 (m (buf.x + buf.i) + m (buf.x + buf.j)))
    let k := sar (m1 (buf.x + buf.i)) 1
    let i1 := wrap32 (buf.i + 1)
    let buf1 := { buf with i := if i1 = buf.n then 0 else i1 }
    let j1 := wrap32 (buf1.j + 1)
    let buf2 := { buf1 with j := if j1 = buf1.n then 0 else j1 }
    (buf2, m1, k)

/-- Source `random_r`. `result` is the output slot (`none` when the pointer is
`NULL`, otherwise its current content); the slot of the outcome holds
`*result` after the call. -/
def random_r (buf : Option random_data) (result : Option Int) (w : World) :
    StepOutcome :=
  match result, buf with
  | some _, some b =>
    let r := random_r_present b w.mem
    { ret := 0, result := some (wrap32 r.2.2), buf := some r.1,
      world := { w with mem := r.2.1 } }
  | _, _ => { ret := -1, result := result, buf := buf,
              world := { w with errno := EINVAL } }

/-- A caller that invokes `random_r` `k` times on a present record, with a
present output slot, and collects the values it stored. -/
def random_r_iter : Nat → random_data → Mem → List Int × random_data × Mem
  | 0, buf, m => ([], buf, m)
  | k + 1, buf, m =>
    let r := random_r_present buf m
    let rest := random_r_iter k r.1 r.2.1
    (wrap32 r.2.2 :: rest.1, rest.2.1, rest.2.2)

/-- A caller that runs `initstate_r` on the buffer at `state`, then `random_r`
`k` times, then saves the record into its buffer with `savestate_r`: the record
and the heap it is left with. -/
def init_next_save (seed : Nat) (state : Int) (size : Nat) (buf0 : random_data)
    (w0 : World) (k : Nat) : random_data × Mem :=
  let o := initstate_r seed state size buf0 w0
  let r := random_r_iter k o.buf o.world.mem
  (r.2.1, (savestate_r r.2.1 ⟨r.2.2, o.world.errno⟩).mem)

/-! ## `memory.c`

The two wrappers forward to copy primitives of the C library. Pointers are byte
addresses, the heap is a map from byte addresses to bytes, `size_t` has 64
bits. -/

/-- Modelled from the spec: the wrappers forward to copy primitives that are
not among the sources; `sizeof (wchar_t)`, a constant of the platform, is 4 on
the targets of the library. -/
def sizeof_wchar_t : Nat := 4

/-- Modelled from the spec: the effect on the heap shared by the copy
primitives the wrappers forward to, which are not among the sources: `len`
bytes at `src`, as they were before the call, end up at `dest`. -/
def copy_bytes (m : Mem) (dest src : Int) (len : Nat) : Mem :=
  fun a => if dest ≤ a ∧ a < dest + len then m (src + (a - dest)) else m a

/-- Modelled from the spec: the copy primitive `mempcpy` of the C library,
which is not among the sources. It copies `len` bytes and returns the address
that follows the last byte written, `dest + len`. -/
def mempcpy (m : Mem) (dest src : Int) (len : Nat) : Int × Mem :=
  (dest + len, copy_bytes m dest src len)

/-- Modelled from the spec: the copy primitive `memmove` of the C library,
which is not among the sources. It copies `len` bytes and returns `dest`. -/
def memmove (m : Mem) (dest src : Int) (len : Nat) : Int × Mem :=
  (dest, copy_bytes m dest src len)

/-- Source `__wmemcpy_chk`: `mempcpy (s1, s2, n * sizeof (wchar_t))`; the
product is taken in `size_t`. -/
def __wmemcpy_chk (m : Mem) (s1 s2 : Int) (n _ns1 : Nat) : Int × Mem :=
  mempcpy m s1 s2 ((n * sizeof_wchar_t) % 18446744073709551616)

/-- Source `__wmemmove_chk`: `memmove (s1, s2, n * sizeof (wchar_t))`; the
product is taken in `size_t`. -/
def __wmemmove_chk (m : Mem) (s1 s2 : Int) (n _ns1 : Nat) : Int × Mem :=
  memmove m s1 s2 ((n * sizeof_wchar_t) % 18446744073709551616)

/-! ## The specification's own sequences

These follow the wording of the specification, not the code; the theorems
below compare them with what the code computes. -/

/-- The degree-selection table of the specification (section 4.1), for a byte
count of at least 8. -/
def specDegree (sizeBytes : Nat) : Int :=
  if sizeBytes < 32 then 0
  else if sizeBytes < 64 then 7
  else if sizeBytes < 128 then 15
  else if sizeBytes < 256 then 31
  else 63

/-- The lag offset of the specification: 3 for the degrees 31 and 7, else 1. -/
def specLag (degree : Int) : Int :=
  if degree = 31 ∨ degree = 7 then 3 else 1

/-- The degree-0 sequence of the specification: `x_0` is the seed and
`x_{k+1} = (1103515245*x_k + 12345) mod 2^31`. -/
def specLcg31 (x0 : Nat) : Nat → Nat
  | 0 => x0
  | k + 1 => (1103515245 * specLcg31 x0 k + 12345) % 2147483648

/-- The 64-bit sequence of the specification's seed expansion: `s_0` is the
seed and `s_{m+1} = (6364136223846793005*s_m + 1) mod 2^64`. -/
def specLcg64 (seed : Nat) : Nat → Nat
  | 0 => seed
  | m + 1 => (6364136223846793005 * specLcg64 seed m + 1) % 18446744073709551616

/-- Table word `k` after the specification's seed expansion: the high 32 bits
of `s_{k+1}`, with bit 0 forced to 1 in slot 0. -/
def specSeedWord (seed : Nat) (k : Nat) : Nat :=
  if k = 0 then (specLcg64 seed 1 / 4294967296) ||| 1
  else specLcg64 seed (k + 1) / 4294967296

/-! ## Lemmas -/

theorem wrap32_of_range (v : Int) (h1 : -2147483648 ≤ v) (h2 : v < 2147483648) :
    wrap32 v = v := by
  unfold wrap32 toU32 toS32; split <;> omega

theorem toS32_range (w : Nat) : -2147483648 ≤ toS32 w ∧ toS32 w < 2147483648 := by
  unfold toS32; split <;> omega

theorem srandom_r_present_n (seed : Nat) (buf : random_data) (w : World) :
    (srandom_r_present seed buf w).buf.n = buf.n := by
  unfold srandom_r_present
  split
  · rfl
  · split <;> rfl

theorem toU32_lt (v : Int) : toU32 v < 4294967296 := by
  unfold toU32; omega

theorem toU32_toS32 (w : Nat) : toU32 (toS32 w) = w % 4294967296 := by
  unfold toU32 toS32; split <;> omega

theorem toS32_of_lt (w : Nat) (h : w < 2147483648) : toS32 w = (w : Int) := by
  unfold toS32; split <;> omega

theorem lcg31_eq (y : Nat) : lcg31 y = (1103515245 * y + 12345) % 2147483648 := by
  unfold lcg31
  have h := Nat.and_pow_two_sub_one_eq_mod ((1103515245 * y + 12345) % 4294967296) 31
  norm_num at h
  omega

theorem lcg31_lt (y : Nat) : lcg31 y < 2147483648 := by
  rw [lcg31_eq]; omega

theorem lcg31_mod (y : Nat) : lcg31 (y % 4294967296) = lcg31 y := by
  rw [lcg31_eq, lcg31_eq]; omega

theorem lcg31_congr (y z : Nat) (h : y % 2147483648 = z % 2147483648) : lcg31 y = lcg31 z := by
  rw [lcg31_eq, lcg31_eq]; omega

theorem specLcg31_succ (x0 k : Nat) : specLcg31 x0 (k + 1) = specLcg31 (lcg31 x0) k := by
  induction k with
  | zero => rw [specLcg31, specLcg31, specLcg31, lcg31_eq]
  | succ k ih => rw [specLcg31, ih, specLcg31]

theorem Mem.write_same (m : Mem) (a v : Int) : m.write a v a = v := by
  simp [Mem.write]

theorem Mem.write_other (m : Mem) (a v b : Int) (h : b ≠ a) : m.write a v b = m b := by
  simp [Mem.write, h]

/-- One call of `random_r` at degree 0. -/
theorem random_r_present_zero (buf : random_data) (m : Mem) (h : buf.n = 0) :
    random_r_present buf m =
      (buf, m.write buf.x ((lcg31 (toU32 (m buf.x)) : Nat) : Int),
        ((lcg31 (toU32 (m buf.x)) : Nat) : Int)) := by
  unfold random_r_present
  rw [if_pos h, toS32_of_lt _ (lcg31_lt _)]

theorem random_r_iter_zero (buf : random_data) (h : buf.n = 0) (k : Nat) :
    ∀ (m : Mem) (y : Nat), toU32 (m buf.x) % 2147483648 = y % 2147483648 →
      (random_r_iter k buf m).1 = (List.range k).map (fun t => (specLcg31 y (t + 1) : Int)) ∧
      (random_r_iter k buf m).2.1 = buf ∧
      (0 < k → (random_r_iter k buf m).2.2 buf.x = (specLcg31 y k : Int)) := by
  induction k with
  | zero => intro m y _; simp [random_r_iter]
  | succ k ih =>
    intro m y hy
    have hl : lcg31 (toU32 (m buf.x)) = lcg31 y := lcg31_congr _ _ hy
    have hstep := random_r_present_zero buf m h
    have hmem : toU32 ((m.write buf.x (lcg31 y : Nat)) buf.x) % 2147483648
        = lcg31 y % 2147483648 := by
      rw [Mem.write_same]
      have := lcg31_lt y
      unfold toU32; omega
    obtain ⟨ih1, ih2, ih3⟩ := ih (m.write buf.x (lcg31 y : Nat)) (lcg31 y) hmem
    simp only [random_r_iter, hstep, hl]
    refine ⟨?_, ih2, ?_⟩
    · rw [ih1, List.range_succ_eq_map, List.map_cons, List.map_map]
      have hw : wrap32 (lcg31 y : Nat) = (lcg31 y : Nat) := by
        have := lcg31_lt y
        unfold wrap32 toU32 toS32; split <;> omega
      rw [hw]
      have h0 : ((lcg31 y : Nat) : Int) = ((specLcg31 y (0 + 1) : Nat) : Int) := by
        rw [lcg31_eq]; rfl
      have ht : List.map (fun t => ((specLcg31 (lcg31 y) (t + 1) : Nat) : Int)) (List.range k)
          = List.map ((fun t => ((specLcg31 y (t + 1) : Nat) : Int)) ∘ Nat.succ)
              (List.range k) := by
        apply List.map_congr_left
        intro t _
        simp only [Function.comp, Nat.succ_eq_add_one]
        rw [specLcg31_succ y (t + 1)]
      rw [h0, ht]
    · intro _
      rcases Nat.eq_zero_or_pos k with hk | hk
      · subst hk
        simp only [random_r_iter, Mem.write_same]
        rw [lcg31_eq]; rfl
      · rw [ih3 hk, specLcg31_succ]


theorem lcg64_lt (s : Nat) : lcg64 s < 18446744073709551616 := by
  unfold lcg64; omega

theorem specLcg64_succ (seed m : Nat) :
    specLcg64 seed (m + 1) = specLcg64 (lcg64 seed) m := by
  induction m with
  | zero => rw [specLcg64, specLcg64, specLcg64, lcg64]
  | succ m ih => rw [specLcg64, ih, specLcg64]

theorem specLcg64_lt (seed m : Nat) : specLcg64 seed (m + 1) < 18446744073709551616 := by
  rw [specLcg64]; omega

theorem toU32_or32 (a b : Int) : toU32 (or32 a b) = toU32 a ||| toU32 b := by
  unfold or32
  rw [toU32_toS32]
  apply Nat.mod_eq_of_lt
  exact Nat.or_lt_two_pow (n := 32) (toU32_lt a) (toU32_lt b)

theorem toU32_one : toU32 1 = 1 := by decide

/-- The heap after the fill loop of `srandom_r`. -/
theorem srandom_loop_spec (x : Int) (r : Nat) :
    ∀ (k : Int) (s : Nat) (m : Mem) (a : Int),
      srandom_loop x r k s m a =
        if x + k ≤ a ∧ a < x + k + r then
          toS32 (specLcg64 s ((a - x - k).toNat + 1) / 4294967296)
        else m a := by
  induction r with
  | zero =>
    intro k s m a
    rw [srandom_loop, if_neg]
    omega
  | succ r ih =>
    intro k s m a
    rw [srandom_loop, ih]
    by_cases h1 : x + (k + 1) ≤ a ∧ a < x + (k + 1) + r
    · rw [if_pos h1, if_pos (by omega)]
      have : (a - x - k).toNat = (a - x - (k + 1)).toNat + 1 := by omega
      rw [this, specLcg64_succ s ((a - x - (k + 1)).toNat + 1)]
    · rw [if_neg h1]
      by_cases h2 : a = x + k
      · subst h2
        rw [Mem.write_same, if_pos (by omega)]
        have : (x + k - x - k).toNat = 0 := by omega
        rw [this, Nat.shiftRight_eq_div_pow]
        rfl
      · rw [Mem.write_other _ _ _ _ h2, if_neg (by omega)]


theorem srandom_r_present_pos (seed : Nat) (buf : random_data) (w : World)
    (h0 : buf.n ≠ 0) (h63 : buf.n ≤ 63) :
    (srandom_r_present seed buf w).ret = 0 ∧
    (srandom_r_present seed buf w).buf = ⟨buf.x, buf.n, specLag buf.n, 0⟩ ∧
    (srandom_r_present seed buf w).world.mem =
      Mem.write (srandom_loop buf.x buf.n.toNat 0 seed w.mem) buf.x
        (or32 (srandom_loop buf.x buf.n.toNat 0 seed w.mem buf.x) 1) := by
  unfold srandom_r_present
  rw [if_neg (by omega), if_neg h0]
  exact ⟨rfl, rfl, rfl⟩

theorem srandom_r_present_word (seed : Nat) (buf : random_data) (w : World)
    (h1 : 1 ≤ buf.n) (h63 : buf.n ≤ 63) (k : Nat) (hk : (k : Int) < buf.n) :
    toU32 ((srandom_r_present seed buf w).world.mem (buf.x + k)) = specSeedWord seed k := by
  rw [(srandom_r_present_pos seed buf w (by omega) h63).2.2]
  unfold specSeedWord
  have hdiv : ∀ t, specLcg64 seed (t + 1) / 4294967296 % 4294967296
      = specLcg64 seed (t + 1) / 4294967296 := by
    intro t
    have := specLcg64_lt seed t
    omega
  by_cases hk0 : k = 0
  · subst hk0
    rw [if_pos rfl]
    simp only [Nat.cast_zero, add_zero]
    rw [Mem.write_same, toU32_or32, toU32_one, srandom_loop_spec, if_pos (by omega),
      toU32_toS32]
    have : (buf.x - buf.x - 0).toNat = 0 := by omega
    rw [this, hdiv]
  · rw [if_neg hk0, Mem.write_other _ _ _ _ (by omega), srandom_loop_spec,
      if_pos (by omega), toU32_toS32]
    have : (buf.x + (k : Int) - buf.x - 0).toNat = k := by omega
    rw [this, hdiv]

theorem srandom_r_present_frame (seed : Nat) (buf : random_data) (w : World) (a : Int)
    (ha : a ≠ buf.x) (hr : ¬ (buf.x ≤ a ∧ a < buf.x + buf.n)) :
    (srandom_r_present seed buf w).world.mem a = w.mem a := by
  unfold srandom_r_present
  split
  · rfl
  · split
    · exact Mem.write_other _ _ _ _ ha
    · simp only
      rw [Mem.write_other _ _ _ _ ha, srandom_loop_spec, if_neg]
      omega

theorem srandom_r_present_errno (seed : Nat) (buf : random_data) (w : World) :
    (srandom_r_present seed buf w).world.errno = w.errno := by
  unfold srandom_r_present
  split
  · rfl
  · split <;> rfl

/-! ## The claims -/

/-- C1: `initstate_r` returns -1 (with `errno = EINVAL`, touching neither the
record nor the heap) exactly when `size < 8`; otherwise it returns 0 and leaves
the degree of the table in section 4.1: 0 on `[8,32)`, 7 on `[32,64)`, 15 on
`[64,128)`, 31 on `[128,256)`, 63 from 256 on. In particular 7 fails, 8 gives
0, 255 gives 31 and 256 gives 63. -/
theorem initstate_r_degree (seed : Nat) (state : Int) (size : Nat) (buf : random_data)
    (w : World) :
    (if size < 8 then
      (initstate_r seed state size buf w).ret = -1 ∧
      (initstate_r seed state size buf w).world.errno = EINVAL ∧
      (initstate_r seed state size buf w).buf = buf ∧
      (initstate_r seed state size buf w).world.mem = w.mem
    else
      (initstate_r seed state size buf w).ret = 0 ∧
      (initstate_r seed state size buf w).buf.n =
        (if size < 32 then 0 else if size < 64 then 7 else if size < 128 then 15
         else if size < 256 then 31 else 63)) ∧
    (initstate_r seed state 7 buf w).ret = -1 ∧
    ((initstate_r seed state 8 buf w).ret = 0 ∧ (initstate_r seed state 8 buf w).buf.n = 0) ∧
    ((initstate_r seed state 255 buf w).ret = 0 ∧
      (initstate_r seed state 255 buf w).buf.n = 31) ∧
    ((initstate_r seed state 256 buf w).ret = 0 ∧
      (initstate_r seed state 256 buf w).buf.n = 63) := by
  have key : ∀ sz : Nat, ¬ sz < 8 →
      (initstate_r seed state sz buf w).ret = 0 ∧
      (initstate_r seed state sz buf w).buf.n =
        (if sz < 32 then 0 else if sz < 64 then 7 else if sz < 128 then 15
         else if sz < 256 then 31 else 63) := by
    intro sz hsz
    unfold initstate_r
    rw [if_neg hsz]
    refine ⟨rfl, ?_⟩
    simp only [srandom_r_present_n]
    split_ifs <;> rfl
  refine ⟨?_, ?_, key 8 (by decide), key 255 (by decide), key 256 (by decide)⟩
  · split
    · next h =>
      unfold initstate_r
      rw [if_pos h]
      exact ⟨rfl, rfl, rfl, rfl⟩
    · next h => exact key size h
  · rfl

/-- C3: a degree-0 generator seeded with `x0` returns, call after call, the
values `x_1, x_2, ...` of the sequence `x_{k+1} = (1103515245*x_k + 12345) mod
2^31`, slot 0 holds `x_k` after the `k`-th call, and the record is left as it
was; with seed 1 the first value is 1103527590. -/
theorem random_r_degree_zero (seed : Nat) (x i j : Int) (w : World) (k : Nat) :
    srandom_r seed (some ⟨x, 0, i, j⟩) w
      = (0, some ⟨x, 0, i, j⟩, (srandom_r_present seed ⟨x, 0, i, j⟩ w).world) ∧
    (random_r_iter (k + 1) ⟨x, 0, i, j⟩
        (srandom_r_present seed ⟨x, 0, i, j⟩ w).world.mem).1
      = (List.range (k + 1)).map (fun t => ((specLcg31 seed (t + 1) : Nat) : Int)) ∧
    (random_r_iter (k + 1) ⟨x, 0, i, j⟩
        (srandom_r_present seed ⟨x, 0, i, j⟩ w).world.mem).2.1 = ⟨x, 0, i, j⟩ ∧
    (random_r_iter (k + 1) ⟨x, 0, i, j⟩
        (srandom_r_present seed ⟨x, 0, i, j⟩ w).world.mem).2.2 x
      = ((specLcg31 seed (k + 1) : Nat) : Int) ∧
    (random_r_iter 1 ⟨x, 0, i, j⟩
        (srandom_r_present 1 ⟨x, 0, i, j⟩ w).world.mem).1 = [1103527590] := by
  have hmem : ∀ sd : Nat,
      toU32 ((srandom_r_present sd ⟨x, 0, i, j⟩ w).world.mem x) % 2147483648
        = sd % 2147483648 := by
    intro sd
    have : (srandom_r_present sd ⟨x, 0, i, j⟩ w).world.mem x = toS32 sd := by
      unfold srandom_r_present
      simp only
      rw [if_neg (by decide), if_pos trivial]
      exact Mem.write_same _ _ _
    rw [this, toU32_toS32]
    omega
  have h := random_r_iter_zero ⟨x, 0, i, j⟩ rfl (k + 1) _ seed (hmem seed)
  have h1 := random_r_iter_zero ⟨x, 0, i, j⟩ rfl 1 _ 1 (hmem 1)
  refine ⟨?_, h.1, h.2.1, h.2.2 (Nat.succ_pos k), ?_⟩
  · unfold srandom_r srandom_r_present
    simp only
    rw [if_neg (by decide), if_pos trivial]
  · rw [h1.1]
    decide

/-- C4: for every seed and every record of degree 7, 15, 31 or 63, `srandom_r`
returns 0, leaves `n` and `x`, sets `i` to 3 for the degrees 31 and 7 and to 1
otherwise, sets `j` to 0, and leaves in slot `k < n` the high 32 bits of
`s_{k+1}` of the 64-bit sequence started at the seed, slot 0 with bit 0 set in
addition. -/
theorem srandom_r_expands (seed : Nat) (x n i j : Int) (w : World)
    (hn : n = 7 ∨ n = 15 ∨ n = 31 ∨ n = 63) :
    (srandom_r seed (some ⟨x, n, i, j⟩) w).1 = 0 ∧
    (srandom_r seed (some ⟨x, n, i, j⟩) w).2.1
      = some ⟨x, n, if n = 31 ∨ n = 7 then 3 else 1, 0⟩ ∧
    ∀ k : Nat, (k : Int) < n →
      toU32 ((srandom_r seed (some ⟨x, n, i, j⟩) w).2.2.mem (x + k)) =
        if k = 0 then (specLcg64 seed 1 / 4294967296) ||| 1
        else specLcg64 seed (k + 1) / 4294967296 := by
  have h1 : (1 : Int) ≤ n := by omega
  have h63 : n ≤ 63 := by omega
  refine ⟨?_, ?_, ?_⟩
  · exact (srandom_r_present_pos seed ⟨x, n, i, j⟩ w (by simp only; omega) h63).1
  · simp only [srandom_r]
    rw [(srandom_r_present_pos seed ⟨x, n, i, j⟩ w (by simp only; omega) h63).2.1]
    rfl
  · intro k hk
    exact srandom_r_present_word seed ⟨x, n, i, j⟩ w h1 h63 k hk

theorem srandom_r_expands_witness :
    ((7 : Int) = 7 ∨ (7 : Int) = 15 ∨ (7 : Int) = 31 ∨ (7 : Int) = 63) ∧
    (srandom_r 1 (some ⟨101, 7, 0, 0⟩) ⟨fun _ => 0, 0⟩).1 = 0 ∧
    (srandom_r 1 (some ⟨101, 7, 0, 0⟩) ⟨fun _ => 0, 0⟩).2.1
      = some ⟨101, 7, if (7 : Int) = 31 ∨ (7 : Int) = 7 then 3 else 1, 0⟩ ∧
    ∀ k : Nat, (k : Int) < 7 →
      toU32 ((srandom_r 1 (some ⟨101, 7, 0, 0⟩) ⟨fun _ => 0, 0⟩).2.2.mem (101 + k)) =
        if k = 0 then (specLcg64 1 1 / 4294967296) ||| 1
        else specLcg64 1 (k + 1) / 4294967296 :=
  ⟨by decide, srandom_r_expands 1 101 7 0 0 ⟨fun _ => 0, 0⟩ (by decide)⟩

theorem initstate_r_eq (seed : Nat) (state : Int) (size : Nat) (buf : random_data)
    (w : World) (h : ¬ size < 8) :
    initstate_r seed state size buf w =
      ⟨0, (srandom_r_present seed ⟨state + 1, specDegree size, buf.i, buf.j⟩
            (savestate_r buf w)).buf,
        savestate_r
          (srandom_r_present seed ⟨state + 1, specDegree size, buf.i, buf.j⟩
            (savestate_r buf w)).buf
          (srandom_r_present seed ⟨state + 1, specDegree size, buf.i, buf.j⟩
            (savestate_r buf w)).world⟩ := by
  unfold initstate_r specDegree
  rw [if_neg h]
  split_ifs <;> rfl

theorem specDegree_cases (size : Nat) (h : 32 ≤ size) :
    specDegree size = 7 ∨ specDegree size = 15 ∨ specDegree size = 31 ∨
      specDegree size = 63 := by
  unfold specDegree
  split_ifs <;> omega

theorem savestate_r_mem_same (buf : random_data) (w : World) :
    (savestate_r buf w).mem (buf.x - 1)
      = or32 (or32 (shl32 buf.n 16) (shl32 buf.i 8)) buf.j := by
  unfold savestate_r
  exact Mem.write_same _ _ _

theorem savestate_r_mem_other (buf : random_data) (w : World) (a : Int)
    (h : a ≠ buf.x - 1) : (savestate_r buf w).mem a = w.mem a := by
  unfold savestate_r
  exact Mem.write_other _ _ _ _ h

theorem initstate_r_buf (seed : Nat) (state : Int) (size : Nat) (buf : random_data)
    (w : World) (h : 32 ≤ size) :
    (initstate_r seed state size buf w).buf
      = ⟨state + 1, specDegree size, specLag (specDegree size), 0⟩ := by
  rw [initstate_r_eq seed state size buf w (by omega)]
  have hd := specDegree_cases size h
  exact (srandom_r_present_pos seed ⟨state + 1, specDegree size, buf.i, buf.j⟩
      (savestate_r buf w) (by simp only; omega) (by simp only; omega)).2.1

theorem initstate_r_mem_other (seed : Nat) (state : Int) (size : Nat) (buf : random_data)
    (w : World) (h : 32 ≤ size) (a : Int) (ha : a ≠ state) :
    (initstate_r seed state size buf w).world.mem a
      = (srandom_r_present seed ⟨state + 1, specDegree size, buf.i, buf.j⟩
          (savestate_r buf w)).world.mem a := by
  have hb := initstate_r_buf seed state size buf w h
  rw [initstate_r_eq seed state size buf w (by omega)] at hb ⊢
  simp only at hb ⊢
  rw [savestate_r_mem_other _ _ _ (by rw [hb]; simp only; omega)]

/-- C5: after `srandom_r` on a record of degree `1 <= n <= 63`, and after
`initstate_r` with `size >= 32`, table slot 0 is odd: the low bit of its bit
pattern is 1. -/
theorem seeded_slot_zero_odd (seed : Nat) (buf : random_data) (w : World)
    (state : Int) (size : Nat) (buf0 : random_data)
    (h1 : 1 ≤ buf.n) (h63 : buf.n ≤ 63) (hs : 32 ≤ size) :
    ((srandom_r seed (some buf) w).1 = 0 ∧
      toU32 ((srandom_r seed (some buf) w).2.2.mem buf.x) % 2 = 1) ∧
    ((initstate_r seed state size buf0 w).ret = 0 ∧
      toU32 ((initstate_r seed state size buf0 w).world.mem
        (initstate_r seed state size buf0 w).buf.x) % 2 = 1) := by
  have hodd : specSeedWord seed 0 % 2 = 1 := by
    unfold specSeedWord
    rw [if_pos rfl, Nat.or_mod_two_eq_one]
    right; rfl
  constructor
  · refine ⟨(srandom_r_present_pos seed buf w (by omega) h63).1, ?_⟩
    have := srandom_r_present_word seed buf w h1 h63 0 (by simpa using h1)
    simp only [Nat.cast_zero, add_zero] at this
    show toU32 ((srandom_r_present seed buf w).world.mem buf.x) % 2 = 1
    rw [this, hodd]
  · refine ⟨by rw [initstate_r_eq seed state size buf0 w (by omega)], ?_⟩
    have hd := specDegree_cases size hs
    have hw := srandom_r_present_word seed ⟨state + 1, specDegree size, buf0.i, buf0.j⟩
      (savestate_r buf0 w) (by simp only; omega) (by simp only; omega) 0
      (by simp only [Nat.cast_zero]; omega)
    simp only [Nat.cast_zero, add_zero] at hw
    rw [initstate_r_buf seed state size buf0 w hs,
      initstate_r_mem_other seed state size buf0 w hs _ (by simp only; omega)]
    simp only
    rw [hw, hodd]

theorem seeded_slot_zero_odd_witness :
    ((srandom_r 5 (some ⟨101, 3, 0, 0⟩) ⟨fun _ => 0, 0⟩).1 = 0 ∧
      toU32 ((srandom_r 5 (some ⟨101, 3, 0, 0⟩) ⟨fun _ => 0, 0⟩).2.2.mem 101) % 2 = 1) ∧
    ((initstate_r 5 100 32 ⟨0, 0, 0, 0⟩ ⟨fun _ => 0, 0⟩).ret = 0 ∧
      toU32 ((initstate_r 5 100 32 ⟨0, 0, 0, 0⟩ ⟨fun _ => 0, 0⟩).world.mem
        (initstate_r 5 100 32 ⟨0, 0, 0, 0⟩ ⟨fun _ => 0, 0⟩).buf.x) % 2 = 1) :=
  seeded_slot_zero_odd 5 ⟨101, 3, 0, 0⟩ ⟨fun _ => 0, 0⟩ 100 32 ⟨0, 0, 0, 0⟩
    (by decide) (by decide) (by decide)

/-- C7: `srandom_r` returns -1 exactly when the handle is absent or the degree
exceeds 63, and then leaves the record, the heap and `errno` as they were; on
every present record with `n <= 63` (the degrees 1 to 6 included) it returns
0. -/
theorem srandom_r_fails_iff (seed : Nat) (buf : Option random_data) (w : World) :
    ((srandom_r seed buf w).1 = -1 ↔ (buf = none ∨ ∃ b, buf = some b ∧ b.n > 63)) ∧
    ((srandom_r seed buf w).1 = -1 → (srandom_r seed buf w).2 = (buf, w)) ∧
    (∀ b, buf = some b → b.n ≤ 63 → (srandom_r seed buf w).1 = 0) := by
  cases buf with
  | none =>
    refine ⟨?_, ?_, ?_⟩
    · simp [srandom_r]
    · intro _; rfl
    · intro b hb; cases hb
  | some b =>
    by_cases h : b.n > 63
    · have hr : srandom_r seed (some b) w = (-1, some b, w) := by
        unfold srandom_r srandom_r_present
        simp only
        rw [if_pos h]
      rw [hr]
      refine ⟨?_, ?_, ?_⟩
      · simp only [true_iff]
        exact Or.inr ⟨b, rfl, h⟩
      · intro _; rfl
      · intro b' hb' hn
        cases hb'
        omega
    · have hr : (srandom_r seed (some b) w).1 = 0 := by
        unfold srandom_r srandom_r_present
        simp only
        rw [if_neg h]
        split <;> rfl
      rw [hr]
      refine ⟨?_, ?_, ?_⟩
      · constructor
        · intro h0; exact absurd h0 (by decide)
        · rintro (h0 | ⟨b', hb', hn⟩)
          · cases h0
          · cases hb'; exact absurd hn h
      · intro h0; exact absurd h0 (by decide)
      · intro _ _ _; trivial

/-- C2: the code evaluated where the claim fails. After
`initstate_r(0, state, 32, buf)` on a zeroed record and heap, slot 0 holds 1
and slot 3 holds -877267386; the first `random_r` leaves their sum -877267385
(bit pattern 3417699911) in slot 3 and stores its arithmetic shift, the
negative number -438633693, where the unsigned shift of the claim gives
1708849955. -/
theorem random_r_negative_result :
    (initstate_r 0 100 32 ⟨0, 0, 0, 0⟩ ⟨fun _ => 0, 0⟩).buf = ⟨101, 7, 3, 0⟩ ∧
    (random_r (some (initstate_r 0 100 32 ⟨0, 0, 0, 0⟩ ⟨fun _ => 0, 0⟩).buf) (some 0)
      (initstate_r 0 100 32 ⟨0, 0, 0, 0⟩ ⟨fun _ => 0, 0⟩).world).ret = 0 ∧
    (random_r (some (initstate_r 0 100 32 ⟨0, 0, 0, 0⟩ ⟨fun _ => 0, 0⟩).buf) (some 0)
      (initstate_r 0 100 32 ⟨0, 0, 0, 0⟩ ⟨fun _ => 0, 0⟩).world).result
      = some (-438633693) ∧
    (random_r (some (initstate_r 0 100 32 ⟨0, 0, 0, 0⟩ ⟨fun _ => 0, 0⟩).buf) (some 0)
      (initstate_r 0 100 32 ⟨0, 0, 0, 0⟩ ⟨fun _ => 0, 0⟩).world).world.mem (101 + 3)
      = -877267385 ∧
    toU32 (-877267385) >>> 1 = 1708849955 := by
  decide

/-- C6, as stated, fails: on a present record of degree 64 with a present
output slot, over a heap of fives, `random_r` returns 0 and stores 5. -/
theorem random_r_degree_64_succeeds :
    (64 : Int) > 63 ∧
    (random_r (some ⟨0, 64, 0, 0⟩) (some 0) ⟨fun _ => 5, 0⟩).ret = 0 ∧
    (random_r (some ⟨0, 64, 0, 0⟩) (some 0) ⟨fun _ => 5, 0⟩).result = some 5 := by
  decide

/-- C6, amended: `random_r` does not look at the degree. It returns -1 exactly
when the record or the output slot is absent, and then sets `errno` to `EINVAL`
and leaves record, slot and heap as they were; when both are present it
returns 0 and stores a value, whatever the degree. -/
theorem random_r_fails_iff (buf : Option random_data) (result : Option Int) (w : World) :
    ((random_r buf result w).ret = -1 ↔ (buf = none ∨ result = none)) ∧
    ((random_r buf result w).ret = -1 →
      (random_r buf result w).result = result ∧ (random_r buf result w).buf = buf ∧
      (random_r buf result w).world.mem = w.mem ∧
      (random_r buf result w).world.errno = EINVAL) ∧
    (∀ b r, buf = some b → result = some r →
      (random_r buf result w).ret = 0 ∧ ∃ v, (random_r buf result w).result = some v) := by
  cases buf with
  | none =>
    cases result <;>
      exact ⟨by simp [random_r], fun _ => ⟨rfl, rfl, rfl, rfl⟩, fun b r hb _ => by cases hb⟩
  | some b =>
    cases result with
    | none =>
      exact ⟨by simp [random_r], fun _ => ⟨rfl, rfl, rfl, rfl⟩, fun b r _ hr => by cases hr⟩
    | some r =>
      refine ⟨?_, ?_, ?_⟩
      · simp [random_r]
      · intro h
        simp [random_r] at h
      · intro b' r' _ _
        exact ⟨rfl, _, rfl⟩

theorem and32_ff (v : Int) : and32 v 0xff = v % 256 := by
  unfold and32
  have h255 : toU32 255 = 255 := by decide
  have h := Nat.and_pow_two_sub_one_eq_mod (toU32 v) 8
  norm_num at h
  rw [h255, h, toS32_of_lt _ (by omega)]
  unfold toU32
  omega

theorem pack_eq (N I J : Nat) (hI : I < 256) (hJ : J < 256) :
    ((N <<< 16) ||| (I <<< 8)) ||| J = N * 65536 + I * 256 + J := by
  have h1 := Nat.mul_add_lt_is_or (i := 16) (b := I * 256) (by omega) N
  have h2 := Nat.mul_add_lt_is_or (i := 8) (b := J) (by omega) (N * 256 + I)
  rw [Nat.shiftLeft_eq, Nat.shiftLeft_eq]
  norm_num at h1 h2 ⊢
  have e1 : N * 65536 = 65536 * N := by omega
  have e2 : 65536 * N ||| I * 256 = 256 * (N * 256 + I) := by rw [← h1]; omega
  rw [e1, e2, ← h2]
  omega

/-- The metadata word of a record whose degree fits 15 bits and whose indices
fit a byte. -/
theorem meta_word (n i j : Int) (hn0 : 0 ≤ n) (hn : n < 32768) (hi0 : 0 ≤ i) (hi : i < 256)
    (hj0 : 0 ≤ j) (hj : j < 256) :
    or32 (or32 (shl32 n 16) (shl32 i 8)) j = n * 65536 + i * 256 + j := by
  have hN : toU32 n = n.toNat := by unfold toU32; omega
  have hI : toU32 i = i.toNat := by unfold toU32; omega
  have hJ : toU32 j = j.toNat := by unfold toU32; omega
  unfold or32 shl32
  rw [toU32_toS32, toU32_toS32, toU32_toS32, hN, hI, hJ]
  have a1 : n.toNat <<< 16 % 4294967296 = n.toNat <<< 16 := by
    rw [Nat.shiftLeft_eq]; omega
  have a2 : i.toNat <<< 8 % 4294967296 = i.toNat <<< 8 := by
    rw [Nat.shiftLeft_eq]; omega
  have hp := pack_eq n.toNat i.toNat 0 (by omega) (by omega)
  have hp0 : (n.toNat <<< 16 ||| i.toNat <<< 8) = n.toNat * 65536 + i.toNat * 256 := by
    simpa using hp
  have a3 : (n.toNat <<< 16 ||| i.toNat <<< 8) % 4294967296
      = (n.toNat <<< 16 ||| i.toNat <<< 8) := by
    rw [hp0]; omega
  rw [a1, a2, a3, pack_eq n.toNat i.toNat j.toNat (by omega) (by omega),
    toS32_of_lt _ (by omega)]
  omega

theorem sar_eq_div (v : Int) (k : Nat) : sar v k = v / ((2 ^ k : Nat) : Int) := by
  unfold sar
  exact Int.shiftRight_eq_div_pow v k

/-- Decoding of the metadata word `n*65536 + i*256 + j`. -/
theorem meta_decode (n i j : Int) (hi0 : 0 ≤ i) (hi : i < 256) (hj0 : 0 ≤ j) (hj : j < 256) :
    sar (n * 65536 + i * 256 + j) 16 = n ∧
    and32 (sar (n * 65536 + i * 256 + j) 8) 0xff = i ∧
    and32 (n * 65536 + i * 256 + j) 0xff = j := by
  rw [and32_ff, and32_ff, sar_eq_div, sar_eq_div]
  norm_num
  omega

theorem save_load (buf : random_data) (w : World) (hn0 : 0 ≤ buf.n) (hn : buf.n < 32768)
    (hi0 : 0 ≤ buf.i) (hi : buf.i < 256) (hj0 : 0 ≤ buf.j) (hj : buf.j < 256) :
    loadstate_r (buf.x - 1) buf (savestate_r buf w) = buf := by
  have hd := meta_decode buf.n buf.i buf.j hi0 hi hj0 hj
  unfold loadstate_r
  simp only [sub_add_cancel, savestate_r_mem_same, meta_word buf.n buf.i buf.j hn0 hn hi0 hi hj0 hj,
    hd.1, hd.2.1, hd.2.2]

/-- C8, as stated, fails at degree 0, where the claim leaves `i` and `j` free:
the record `(n, i, j) = (0, 256, 0)` is saved as the word 65536, which loads as
`(1, 0, 0)`. -/
theorem save_load_counterexample :
    (⟨1, 0, 256, 0⟩ : random_data).n = 0 ∧
    (savestate_r ⟨1, 0, 256, 0⟩ ⟨fun _ => 0, 0⟩).mem 0 = 65536 ∧
    loadstate_r (1 - 1) ⟨1, 0, 256, 0⟩ (savestate_r ⟨1, 0, 256, 0⟩ ⟨fun _ => 0, 0⟩)
      = ⟨1, 1, 0, 0⟩ := by
  decide

/-- C8, amended: for every record with degree in `{0,7,15,31,63}`, with
`0 <= i,j < n` when `n > 0` and with `0 <= i,j <= 255` when `n = 0`,
`savestate_r` followed by `loadstate_r` on the same buffer gives back the same
`(n, i, j)` and the same table binding. -/
theorem save_load_roundtrip (buf : random_data) (w : World)
    (hn : buf.n = 0 ∨ buf.n = 7 ∨ buf.n = 15 ∨ buf.n = 31 ∨ buf.n = 63)
    (hpos : 0 < buf.n → 0 ≤ buf.i ∧ buf.i < buf.n ∧ 0 ≤ buf.j ∧ buf.j < buf.n)
    (hzero : buf.n = 0 → 0 ≤ buf.i ∧ buf.i ≤ 255 ∧ 0 ≤ buf.j ∧ buf.j ≤ 255) :
    loadstate_r (buf.x - 1) buf (savestate_r buf w) = buf := by
  by_cases h0 : buf.n = 0
  · obtain ⟨a, b, c, d⟩ := hzero h0
    exact save_load buf w (by omega) (by omega) a (by omega) c (by omega)
  · obtain ⟨a, b, c, d⟩ := hpos (by omega)
    exact save_load buf w (by omega) (by omega) a (by omega) c (by omega)

theorem save_load_roundtrip_witness :
    ((7 : Int) = 0 ∨ (7 : Int) = 7 ∨ (7 : Int) = 15 ∨ (7 : Int) = 31 ∨ (7 : Int) = 63) ∧
    loadstate_r ((⟨101, 7, 5, 2⟩ : random_data).x - 1) ⟨101, 7, 5, 2⟩
      (savestate_r ⟨101, 7, 5, 2⟩ ⟨fun _ => 0, 0⟩) = ⟨101, 7, 5, 2⟩ :=
  ⟨by decide, save_load_roundtrip ⟨101, 7, 5, 2⟩ ⟨fun _ => 0, 0⟩ (by decide) (by decide)
    (by decide)⟩

theorem initstate_r_meta (seed : Nat) (state : Int) (size : Nat) (buf : random_data)
    (w : World) (h : 32 ≤ size) :
    (initstate_r seed state size buf w).world.mem state
      = or32 (or32 (shl32 (specDegree size) 16) (shl32 (specLag (specDegree size)) 8)) 0 := by
  have hb := initstate_r_buf seed state size buf w h
  rw [initstate_r_eq seed state size buf w (by omega)] at hb ⊢
  simp only at hb ⊢
  rw [hb]
  have := savestate_r_mem_same ⟨state + 1, specDegree size, specLag (specDegree size), 0⟩
    (srandom_r_present seed ⟨state + 1, specDegree size, buf.i, buf.j⟩
      (savestate_r buf w)).world
  simpa using this

/-- C10: after `initstate_r` with `size >= 32` the record has the degree `n`
selected for `size` and its table bound to word 1 of the buffer; word 0 of the
buffer holds `(n << 16) | (L << 8) | 0` with `L` = 3 for `n` in `{31, 7}` and 1
otherwise; words `1..n` hold the `n` words of the seed expansion. -/
theorem initstate_r_layout (seed : Nat) (state : Int) (size : Nat) (buf : random_data)
    (w : World) (h : 32 ≤ size) :
    (initstate_r seed state size buf w).ret = 0 ∧
    (initstate_r seed state size buf w).buf.n = specDegree size ∧
    (initstate_r seed state size buf w).buf.x = state + 1 ∧
    toU32 ((initstate_r seed state size buf w).world.mem state)
      = ((specDegree size).toNat <<< 16) |||
        ((if specDegree size = 31 ∨ specDegree size = 7 then 3 else 1) <<< 8) ||| 0 ∧
    ∀ k : Nat, (k : Int) < specDegree size →
      toU32 ((initstate_r seed state size buf w).world.mem (state + 1 + k))
        = specSeedWord seed k := by
  have hd := specDegree_cases size h
  have hb := initstate_r_buf seed state size buf w h
  refine ⟨by rw [initstate_r_eq seed state size buf w (by omega)], by rw [hb], by rw [hb],
    ?_, ?_⟩
  · rw [initstate_r_meta seed state size buf w h]
    rcases hd with e | e | e | e <;> rw [e] <;> decide
  · intro k hk
    rw [initstate_r_mem_other seed state size buf w h _ (by omega)]
    exact srandom_r_present_word seed ⟨state + 1, specDegree size, buf.i, buf.j⟩
      (savestate_r buf w) (by simp only; omega) (by simp only; omega) k hk

theorem initstate_r_layout_witness :
    32 ≤ 128 ∧
    (initstate_r 1 100 128 ⟨0, 0, 0, 0⟩ ⟨fun _ => 0, 0⟩).ret = 0 ∧
    (initstate_r 1 100 128 ⟨0, 0, 0, 0⟩ ⟨fun _ => 0, 0⟩).buf.n = specDegree 128 ∧
    (initstate_r 1 100 128 ⟨0, 0, 0, 0⟩ ⟨fun _ => 0, 0⟩).buf.x = 100 + 1 ∧
    toU32 ((initstate_r 1 100 128 ⟨0, 0, 0, 0⟩ ⟨fun _ => 0, 0⟩).world.mem 100)
      = ((specDegree 128).toNat <<< 16) |||
        ((if specDegree 128 = 31 ∨ specDegree 128 = 7 then 3 else 1) <<< 8) ||| 0 ∧
    ∀ k : Nat, (k : Int) < specDegree 128 →
      toU32 ((initstate_r 1 100 128 ⟨0, 0, 0, 0⟩ ⟨fun _ => 0, 0⟩).world.mem (100 + 1 + k))
        = specSeedWord 1 k :=
  ⟨by decide, initstate_r_layout 1 100 128 ⟨0, 0, 0, 0⟩ ⟨fun _ => 0, 0⟩ (by decide)⟩

/-- One call of `random_r` at a degree `0 < n < 2^31` with indices in range. -/
theorem random_r_present_pos (b : random_data) (m : Mem) (hn : 0 < b.n)
    (hn31 : b.n < 2147483648) (hi0 : 0 ≤ b.i) (hi : b.i < b.n) (hj0 : 0 ≤ b.j)
    (hj : b.j < b.n) :
    (random_r_present b m).1
      = ⟨b.x, b.n, if b.i + 1 = b.n then 0 else b.i + 1,
          if b.j + 1 = b.n then 0 else b.j + 1⟩ ∧
    (random_r_present b m).2.1
      = m.write (b.x + b.i) (wrap32 (m (b.x + b.i) + m (b.x + b.j))) ∧
    (random_r_present b m).2.2 = sar (wrap32 (m (b.x + b.i) + m (b.x + b.j))) 1 := by
  unfold random_r_present
  rw [if_neg (by omega)]
  simp only [Mem.write_same]
  rw [wrap32_of_range (b.i + 1) (by omega) (by omega),
    wrap32_of_range (b.j + 1) (by omega) (by omega)]
  simp

/-- Two generators with the same `(n, i, j)` whose active table words agree
make the same step: same value, same new `(n, i, j)`, tables still in
agreement. -/
theorem random_r_present_agree (b1 b2 : random_data) (m1 m2 : Mem)
    (hn : b1.n = b2.n) (hi : b1.i = b2.i) (hj : b1.j = b2.j) (hn31 : b1.n < 2147483648)
    (hinv : b1.n = 0 ∨ (0 ≤ b1.i ∧ b1.i < b1.n ∧ 0 ≤ b1.j ∧ b1.j < b1.n))
    (hmem : ∀ t : Int, 0 ≤ t → (t < b1.n ∨ t = 0) → m1 (b1.x + t) = m2 (b2.x + t)) :
    (random_r_present b1 m1).2.2 = (random_r_present b2 m2).2.2 ∧
    (random_r_present b1 m1).1.x = b1.x ∧ (random_r_present b2 m2).1.x = b2.x ∧
    (random_r_present b1 m1).1.n = b1.n ∧
    (random_r_present b1 m1).1.n = (random_r_present b2 m2).1.n ∧
    (random_r_present b1 m1).1.i = (random_r_present b2 m2).1.i ∧
    (random_r_present b1 m1).1.j = (random_r_present b2 m2).1.j ∧
    ((random_r_present b1 m1).1.n = 0 ∨
      (0 ≤ (random_r_present b1 m1).1.i ∧
        (random_r_present b1 m1).1.i < (random_r_present b1 m1).1.n ∧
        0 ≤ (random_r_present b1 m1).1.j ∧
        (random_r_present b1 m1).1.j < (random_r_present b1 m1).1.n)) ∧
    ∀ t : Int, 0 ≤ t → (t < b1.n ∨ t = 0) →
      (random_r_present b1 m1).2.1 (b1.x + t) = (random_r_present b2 m2).2.1 (b2.x + t) := by
  rcases hinv with h0 | ⟨a, b, c, d⟩
  · have h0' : b2.n = 0 := by omega
    have e0 := hmem 0 (le_refl 0) (Or.inr rfl)
    simp only [add_zero] at e0
    rw [random_r_present_zero b1 m1 h0, random_r_present_zero b2 m2 h0', e0]
    refine ⟨rfl, rfl, rfl, rfl, hn, hi, hj, Or.inl h0, ?_⟩
    intro t ht0 ht
    have : t = 0 := by omega
    subst this
    simp only [add_zero, Mem.write_same]
  · have p1 := random_r_present_pos b1 m1 (by omega) hn31 a b c d
    have p2 := random_r_present_pos b2 m2 (by omega) (by omega) (by omega) (by omega)
      (by omega) (by omega)
    have ei := hmem b1.i a (Or.inl b)
    have ej := hmem b1.j c (Or.inl d)
    rw [hi] at ei
    rw [hj] at ej
    rw [p1.1, p1.2.1, p1.2.2, p2.1, p2.2.1, p2.2.2, hi, hj, ei, ej, hn]
    refine ⟨rfl, rfl, rfl, rfl, rfl, rfl, rfl, Or.inr ?_, ?_⟩
    · simp only
      split_ifs <;> omega
    · intro t ht0 ht
      by_cases e : t = b2.i
      · subst e
        rw [Mem.write_same, Mem.write_same]
      · rw [Mem.write_other _ _ _ _ (by omega), Mem.write_other _ _ _ _ (by omega)]
        exact hmem t ht0 (by omega)

theorem random_r_iter_agree (k : Nat) : ∀ (b1 b2 : random_data) (m1 m2 : Mem),
    b1.n = b2.n → b1.i = b2.i → b1.j = b2.j → b1.n < 2147483648 →
    (b1.n = 0 ∨ (0 ≤ b1.i ∧ b1.i < b1.n ∧ 0 ≤ b1.j ∧ b1.j < b1.n)) →
    (∀ t : Int, 0 ≤ t → (t < b1.n ∨ t = 0) → m1 (b1.x + t) = m2 (b2.x + t)) →
    (random_r_iter k b1 m1).1 = (random_r_iter k b2 m2).1 := by
  induction k with
  | zero => intros; rfl
  | succ k ih =>
    intro b1 b2 m1 m2 hn hi hj hn31 hinv hmem
    obtain ⟨s1, s2, s3, s4, s5, s6, s7, s8, s9⟩ :=
      random_r_present_agree b1 b2 m1 m2 hn hi hj hn31 hinv hmem
    simp only [random_r_iter]
    rw [s1]
    have := ih (random_r_present b1 m1).1 (random_r_present b2 m2).1
      (random_r_present b1 m1).2.1 (random_r_present b2 m2).2.1 s5 s6 s7
      (by rw [s4]; exact hn31) s8
      (by
        intro t ht0 ht
        rw [s2, s3]
        exact s9 t ht0 (by rw [s4] at ht; exact ht))
    rw [this]

/-- Stepping keeps the table binding and the degree, keeps the indices in
range, and at degree 0 keeps the whole record; it writes only active words. -/
theorem random_r_iter_inv (k : Nat) : ∀ (b : random_data) (m : Mem),
    b.n < 2147483648 →
    (b.n = 0 ∨ (0 ≤ b.i ∧ b.i < b.n ∧ 0 ≤ b.j ∧ b.j < b.n)) →
    (random_r_iter k b m).2.1.x = b.x ∧ (random_r_iter k b m).2.1.n = b.n ∧
    (b.n = 0 → (random_r_iter k b m).2.1 = b) ∧
    (0 < b.n → (0 ≤ (random_r_iter k b m).2.1.i ∧ (random_r_iter k b m).2.1.i < b.n ∧
      0 ≤ (random_r_iter k b m).2.1.j ∧ (random_r_iter k b m).2.1.j < b.n)) := by
  induction k with
  | zero =>
    intro b m _ hinv
    refine ⟨rfl, rfl, fun _ => rfl, ?_⟩
    intro hpos
    rcases hinv with h | h
    · omega
    · exact h
  | succ k ih =>
    intro b m hn31 hinv
    obtain ⟨_, s2, _, s4, _, _, _, s8, _⟩ :=
      random_r_present_agree b b m m rfl rfl rfl hn31 hinv (fun _ _ _ => rfl)
    obtain ⟨i1, i2, i3, i4⟩ := ih (random_r_present b m).1 (random_r_present b m).2.1
      (by rw [s4]; exact hn31) s8
    simp only [random_r_iter]
    refine ⟨by rw [i1, s2], by rw [i2, s4], ?_, ?_⟩
    · intro h0
      rw [i3 (by rw [s4]; exact h0), random_r_present_zero b m h0]
    · intro hpos
      have := i4 (by rw [s4]; exact hpos)
      rw [s4] at this
      exact this

theorem initstate_r_buf_small (seed : Nat) (state : Int) (size : Nat) (buf : random_data)
    (w : World) (h8 : 8 ≤ size) (h : size < 32) :
    (initstate_r seed state size buf w).buf = ⟨state + 1, 0, buf.i, buf.j⟩ := by
  rw [initstate_r_eq seed state size buf w (by omega)]
  have hd : specDegree size = 0 := by unfold specDegree; rw [if_pos h]
  rw [hd]
  unfold srandom_r_present
  simp only
  rw [if_neg (by decide), if_pos trivial]

/-- Loading from a buffer whose metadata word is `n*65536 + i*256 + j`. -/
theorem loadstate_r_of_word (b2 : Int) (r : random_data) (w : World) (n i j : Int)
    (hi0 : 0 ≤ i) (hi : i < 256) (hj0 : 0 ≤ j) (hj : j < 256)
    (hw : w.mem b2 = n * 65536 + i * 256 + j) :
    loadstate_r b2 r w = ⟨b2 + 1, n, i, j⟩ := by
  have hd := meta_decode n i j hi0 hi hj0 hj
  unfold loadstate_r
  simp only [add_sub_cancel_right, hw, hd.1, hd.2.1, hd.2.2]

/-- C9, as stated, fails when the degree is 0 and the record came with an `i`
that does not fit a byte. Start from a record with `i = 256`, run
`initstate_r(1, state, 8, buf)` and no `random_r`: the saved metadata word is
65536. A buffer with the same two words loads as degree 1, and its first value
is 1, where the original generator returns 1103527590. -/
theorem resume_counterexample :
    (init_next_save 1 100 8 ⟨0, 0, 256, 0⟩ ⟨fun _ => 0, 0⟩ 0).1 = ⟨101, 0, 256, 0⟩ ∧
    (init_next_save 1 100 8 ⟨0, 0, 256, 0⟩ ⟨fun _ => 0, 0⟩ 0).2 100 = 65536 ∧
    (init_next_save 1 100 8 ⟨0, 0, 256, 0⟩ ⟨fun _ => 0, 0⟩ 0).2 101 = 1 ∧
    loadstate_r 200 ⟨0, 0, 0, 0⟩
        ⟨fun a => if a = 200 then 65536 else if a = 201 then 1 else 0, 0⟩
      = ⟨201, 1, 0, 0⟩ ∧
    (random_r_iter 1
        (loadstate_r 200 ⟨0, 0, 0, 0⟩
          ⟨fun a => if a = 200 then 65536 else if a = 201 then 1 else 0, 0⟩)
        (fun a => if a = 200 then 65536 else if a = 201 then 1 else 0)).1 = [1] ∧
    (random_r_iter 1 (init_next_save 1 100 8 ⟨0, 0, 256, 0⟩ ⟨fun _ => 0, 0⟩ 0).1
        (init_next_save 1 100 8 ⟨0, 0, 256, 0⟩ ⟨fun _ => 0, 0⟩ 0).2).1 = [1103527590] := by
  decide

/-- C9, amended: let `S` be the state after `initstate_r` (any seed, any
`size >= 8`) and any number of `random_r` calls, where for `size < 32` the
record came with `0 <= i,j <= 255`. After `savestate_r` of `S` into its buffer,
a state loaded from any buffer whose words equal that buffer's returns, under
every number of further `random_r` calls, the same values as `S`. -/
theorem resume_from_copy (seed : Nat) (state : Int) (size : Nat) (buf0 : random_data)
    (w0 : World) (k : Nat) (r : random_data) (m2 : Mem) (b2 e2 : Int) (k2 : Nat)
    (hsz : 8 ≤ size)
    (hbyte : size < 32 → 0 ≤ buf0.i ∧ buf0.i ≤ 255 ∧ 0 ≤ buf0.j ∧ buf0.j ≤ 255)
    (hcopy : ∀ t : Int, 0 ≤ t → 4 * t + 4 ≤ size →
      m2 (b2 + t) = (init_next_save seed state size buf0 w0 k).2 (state + t)) :
    (random_r_iter k2 (loadstate_r b2 r ⟨m2, e2⟩) m2).1
      = (random_r_iter k2 (init_next_save seed state size buf0 w0 k).1
          (init_next_save seed state size buf0 w0 k).2).1 := by
  -- the record after initialisation
  have hbuf : ∃ n i j : Int, (initstate_r seed state size buf0 w0).buf = ⟨state + 1, n, i, j⟩ ∧
      4 * n + 4 ≤ size ∧ 0 ≤ n ∧ n ≤ 63 ∧
      ((n = 0 ∧ 0 ≤ i ∧ i ≤ 255 ∧ 0 ≤ j ∧ j ≤ 255) ∨
        (0 < n ∧ 0 ≤ i ∧ i < n ∧ 0 ≤ j ∧ j < n)) := by
    by_cases h32 : size < 32
    · obtain ⟨a, b, c, d⟩ := hbyte h32
      exact ⟨0, buf0.i, buf0.j, initstate_r_buf_small seed state size buf0 w0 hsz h32,
        by omega, by omega, by omega, Or.inl ⟨rfl, a, b, c, d⟩⟩
    · have hd := specDegree_cases size (by omega)
      have hle : 4 * specDegree size + 4 ≤ size := by
        unfold specDegree; split_ifs <;> omega
      refine ⟨specDegree size, specLag (specDegree size), 0,
        initstate_r_buf seed state size buf0 w0 (by omega), hle, by omega, by omega,
        Or.inr ⟨by omega, ?_, ?_, le_refl 0, by omega⟩⟩
      · unfold specLag; split_ifs <;> omega
      · unfold specLag; split_ifs <;> omega
  obtain ⟨n, i, j, hb, hsize, hn0, hn63, hij⟩ := hbuf
  have hinv0 : (initstate_r seed state size buf0 w0).buf.n = 0 ∨
      (0 ≤ (initstate_r seed state size buf0 w0).buf.i ∧
        (initstate_r seed state size buf0 w0).buf.i < (initstate_r seed state size buf0 w0).buf.n ∧
        0 ≤ (initstate_r seed state size buf0 w0).buf.j ∧
        (initstate_r seed state size buf0 w0).buf.j
          < (initstate_r seed state size buf0 w0).buf.n) := by
    rw [hb]
    rcases hij with h | h
    · exact Or.inl h.1
    · exact Or.inr h.2
  obtain ⟨ix, inn, iz, ip⟩ := random_r_iter_inv k (initstate_r seed state size buf0 w0).buf
    (initstate_r seed state size buf0 w0).world.mem (by rw [hb]; simp only; omega) hinv0
  -- the saved record `S`
  obtain ⟨S, hS⟩ : ∃ S, S = (random_r_iter k (initstate_r seed state size buf0 w0).buf
      (initstate_r seed state size buf0 w0).world.mem).2.1 := ⟨_, rfl⟩
  rw [← hS] at ix inn iz ip
  rw [hb] at ix inn iz ip
  simp only at ix inn iz ip
  have hSij : 0 ≤ S.i ∧ S.i < 256 ∧ 0 ≤ S.j ∧ S.j < 256 ∧ (S.n = 0 ∨
      (0 ≤ S.i ∧ S.i < S.n ∧ 0 ≤ S.j ∧ S.j < S.n)) := by
    rcases hij with h | h
    · have := iz h.1
      rw [this]
      simp only
      exact ⟨h.2.1, by omega, h.2.2.2.1, by omega, Or.inl h.1⟩
    · have := ip h.1
      rw [inn]
      exact ⟨this.1, by omega, this.2.2.1, by omega, Or.inr this⟩
  obtain ⟨si0, si, sj0, sj, sinv⟩ := hSij
  have hfst : (init_next_save seed state size buf0 w0 k).1 = S := by
    rw [hS]; rfl
  have hsnd : (init_next_save seed state size buf0 w0 k).2
      = (savestate_r S ⟨(random_r_iter k (initstate_r seed state size buf0 w0).buf
          (initstate_r seed state size buf0 w0).world.mem).2.2,
          (initstate_r seed state size buf0 w0).world.errno⟩).mem := by
    rw [hS]; rfl
  -- the metadata word of the copy
  have hmeta : m2 b2 = S.n * 65536 + S.i * 256 + S.j := by
    have h0 := hcopy 0 (le_refl 0) (by omega)
    rw [hsnd] at h0
    have hx : state + 0 = S.x - 1 := by omega
    rw [add_zero b2, hx, savestate_r_mem_same,
      meta_word S.n S.i S.j (by omega) (by omega) si0 si sj0 sj] at h0
    exact h0
  have hload : loadstate_r b2 r ⟨m2, e2⟩ = ⟨b2 + 1, S.n, S.i, S.j⟩ :=
    loadstate_r_of_word b2 r ⟨m2, e2⟩ S.n S.i S.j si0 si sj0 sj hmeta
  rw [hfst, hload]
  apply random_r_iter_agree k2 ⟨b2 + 1, S.n, S.i, S.j⟩ S m2 _ rfl rfl rfl
    (by simp only; omega) sinv
  intro t ht0 ht
  simp only at ht ⊢
  have h1 := hcopy (1 + t) (by omega) (by omega)
  rw [hsnd] at h1 ⊢
  have e1 : b2 + 1 + t = b2 + (1 + t) := by omega
  have e2 : S.x + t = state + (1 + t) := by omega
  rw [e1, e2]
  exact h1

theorem resume_from_copy_witness :
    8 ≤ 32 ∧
    (random_r_iter 3
        (loadstate_r 200 ⟨0, 0, 0, 0⟩
          ⟨fun a => (init_next_save 1 100 32 ⟨0, 0, 0, 0⟩ ⟨fun _ => 0, 0⟩ 2).2 (a - 100), 0⟩)
        (fun a => (init_next_save 1 100 32 ⟨0, 0, 0, 0⟩ ⟨fun _ => 0, 0⟩ 2).2 (a - 100))).1
      = (random_r_iter 3 (init_next_save 1 100 32 ⟨0, 0, 0, 0⟩ ⟨fun _ => 0, 0⟩ 2).1
          (init_next_save 1 100 32 ⟨0, 0, 0, 0⟩ ⟨fun _ => 0, 0⟩ 2).2).1 :=
  ⟨by decide,
    resume_from_copy 1 100 32 ⟨0, 0, 0, 0⟩ ⟨fun _ => 0, 0⟩ 2 ⟨0, 0, 0, 0⟩
      (fun a => (init_next_save 1 100 32 ⟨0, 0, 0, 0⟩ ⟨fun _ => 0, 0⟩ 2).2 (a - 100)) 200 0 3
      (by decide) (by decide)
      (fun t _ _ => congrArg (init_next_save 1 100 32 ⟨0, 0, 0, 0⟩ ⟨fun _ => 0, 0⟩ 2).2
        (by omega))⟩


/-- C20: the code evaluated where the claim fails. Copying one wide character
to the address 1000, `__wmemcpy_chk` returns 1004, the address after the copy,
where `__wmemmove_chk` returns 1000. -/
theorem wmemcpy_chk_returns_end :
    (__wmemcpy_chk (fun a => a) 1000 2000 1 1).1 = 1004 ∧
    (__wmemmove_chk (fun a => a) 1000 2000 1 1).1 = 1000 ∧
    (__wmemcpy_chk (fun a => a) 1000 2000 1 1).2 1000 = 2000 ∧
    (__wmemcpy_chk (fun a => a) 1000 2000 1 1).2 1003 = 2003 ∧
    (__wmemcpy_chk (fun a => a) 1000 2000 1 1).2 1004 = 1004 := by
  decide


theorem initstate_r_mem_small (seed : Nat) (state : Int) (size : Nat) (buf : random_data)
    (w : World) (h8 : 8 ≤ size) (h : size < 32) :
    (initstate_r seed state size buf w).world.mem (state + 1) = toS32 seed ∧
    (initstate_r seed state size buf w).world.mem state
      = or32 (or32 (shl32 0 16) (shl32 buf.i 8)) buf.j := by
  have hb := initstate_r_buf_small seed state size buf w h8 h
  rw [initstate_r_eq seed state size buf w (by omega)] at hb ⊢
  simp only at hb ⊢
  rw [hb]
  have hd : specDegree size = 0 := by unfold specDegree; rw [if_pos h]
  constructor
  · rw [savestate_r_mem_other _ _ _ (by simp only; omega), hd]
    unfold srandom_r_present
    simp only
    rw [if_neg (by decide), if_pos trivial]
    exact Mem.write_same _ _ _
  · have := savestate_r_mem_same ⟨state + 1, 0, buf.i, buf.j⟩
      (srandom_r_present seed ⟨state + 1, specDegree size, buf.i, buf.j⟩
        (savestate_r buf w)).world
    simpa using this

/-- C11, as stated, fails: `initstate_r` with a size below 32 does not touch
`i` and `j`. A record first initialised with 128 bytes (degree 31, `i = 3`) and
then with 8 bytes has degree 0 with `i = 3`; and a record that comes with
`i = 256` keeps it, and the metadata word written, 65536, loads as degree 1. -/
theorem initstate_r_degree_zero_counterexample :
    (initstate_r 1 100 128 ⟨0, 0, 0, 0⟩ ⟨fun _ => 0, 0⟩).buf = ⟨101, 31, 3, 0⟩ ∧
    (initstate_r 1 300 8 (initstate_r 1 100 128 ⟨0, 0, 0, 0⟩ ⟨fun _ => 0, 0⟩).buf
      (initstate_r 1 100 128 ⟨0, 0, 0, 0⟩ ⟨fun _ => 0, 0⟩).world).buf = ⟨301, 0, 3, 0⟩ ∧
    (initstate_r 1 100 8 ⟨0, 0, 256, 0⟩ ⟨fun _ => 0, 0⟩).buf = ⟨101, 0, 256, 0⟩ ∧
    (initstate_r 1 100 8 ⟨0, 0, 256, 0⟩ ⟨fun _ => 0, 0⟩).world.mem 100 = 65536 ∧
    loadstate_r 100 ⟨0, 0, 0, 0⟩ (initstate_r 1 100 8 ⟨0, 0, 256, 0⟩ ⟨fun _ => 0, 0⟩).world
      = ⟨101, 1, 0, 0⟩ := by
  decide

/-- C11, amended: for every seed, every size in `[8,32)` and every prior
record, `initstate_r` returns 0 and leaves degree 0, the table bound to word 1
of the buffer and `i`, `j` as the record had them (so both 0 when they were 0);
table slot 0 holds the raw 32-bit pattern of the seed; and when the prior `i`
and `j` lie in `0..255` the metadata word written loads as degree 0 with those
`i` and `j`. -/
theorem initstate_r_degree_zero (seed : Nat) (state : Int) (size : Nat) (buf : random_data)
    (w : World) (r : random_data) (h8 : 8 ≤ size) (h32 : size < 32) :
    (initstate_r seed state size buf w).ret = 0 ∧
    (initstate_r seed state size buf w).buf = ⟨state + 1, 0, buf.i, buf.j⟩ ∧
    toU32 ((initstate_r seed state size buf w).world.mem (state + 1)) = seed % 4294967296 ∧
    (0 ≤ buf.i ∧ buf.i ≤ 255 ∧ 0 ≤ buf.j ∧ buf.j ≤ 255 →
      loadstate_r state r (initstate_r seed state size buf w).world
        = ⟨state + 1, 0, buf.i, buf.j⟩) := by
  have hm := initstate_r_mem_small seed state size buf w h8 h32
  refine ⟨by rw [initstate_r_eq seed state size buf w (by omega)],
    initstate_r_buf_small seed state size buf w h8 h32, ?_, ?_⟩
  · rw [hm.1, toU32_toS32]
  · rintro ⟨a, b, c, d⟩
    apply loadstate_r_of_word state r _ 0 buf.i buf.j a (by omega) c (by omega)
    rw [hm.2, meta_word 0 buf.i buf.j (le_refl 0) (by decide) a (by omega) c (by omega)]

theorem initstate_r_degree_zero_witness :
    (8 ≤ 8 ∧ 8 < 32) ∧
    (initstate_r 5 100 8 ⟨0, 9, 2, 1⟩ ⟨fun _ => 0, 0⟩).ret = 0 ∧
    (initstate_r 5 100 8 ⟨0, 9, 2, 1⟩ ⟨fun _ => 0, 0⟩).buf
      = ⟨100 + 1, 0, (⟨0, 9, 2, 1⟩ : random_data).i, (⟨0, 9, 2, 1⟩ : random_data).j⟩ ∧
    toU32 ((initstate_r 5 100 8 ⟨0, 9, 2, 1⟩ ⟨fun _ => 0, 0⟩).world.mem (100 + 1))
      = 5 % 4294967296 ∧
    (0 ≤ (⟨0, 9, 2, 1⟩ : random_data).i ∧ (⟨0, 9, 2, 1⟩ : random_data).i ≤ 255 ∧
        0 ≤ (⟨0, 9, 2, 1⟩ : random_data).j ∧ (⟨0, 9, 2, 1⟩ : random_data).j ≤ 255 →
      loadstate_r 100 ⟨0, 0, 0, 0⟩ (initstate_r 5 100 8 ⟨0, 9, 2, 1⟩ ⟨fun _ => 0, 0⟩).world
        = ⟨100 + 1, 0, (⟨0, 9, 2, 1⟩ : random_data).i, (⟨0, 9, 2, 1⟩ : random_data).j⟩) :=
  ⟨by decide, initstate_r_degree_zero 5 100 8 ⟨0, 9, 2, 1⟩ ⟨fun _ => 0, 0⟩ ⟨0, 0, 0, 0⟩
    (by decide) (by decide)⟩

/-- C14: `setstate_r` returns -1 exactly when the new buffer or the record is
absent, and then sets `errno` to `EINVAL` and leaves the record and the heap as
they were; when both are present it returns 0. -/
theorem setstate_r_fails_iff (state : Option Int) (buf : Option random_data) (w : World) :
    ((setstate_r state buf w).1 = -1 ↔ (state = none ∨ buf = none)) ∧
    ((setstate_r state buf w).1 = -1 →
      (setstate_r state buf w).2.1 = buf ∧ (setstate_r state buf w).2.2.mem = w.mem ∧
      (setstate_r state buf w).2.2.errno = EINVAL) ∧
    (∀ st b, state = some st → buf = some b → (setstate_r state buf w).1 = 0) := by
  cases state with
  | none =>
    cases buf <;>
      exact ⟨by simp [setstate_r], fun _ => ⟨rfl, rfl, rfl⟩, fun st b hs _ => by cases hs⟩
  | some st =>
    cases buf with
    | none =>
      exact ⟨by simp [setstate_r], fun _ => ⟨rfl, rfl, rfl⟩, fun st b _ hb => by cases hb⟩
    | some b =>
      refine ⟨?_, ?_, ?_⟩
      · simp [setstate_r]
      · intro h
        simp [setstate_r] at h
      · intro _ _ _ _
        rfl

/-- C13: on a present buffer at `st` and a present record bound to a buffer
`B1` (table at `x`, metadata word at `x - 1`), `setstate_r` returns 0; it
writes `(n<<16)|(i<<8)|j` of the record into the metadata word of `B1` and no
other word of the heap, so the table words of `B1` and the words of any buffer
that does not hold that metadata word are as before; the record is then bound
to `st + 1` with `n = word >> 16`, `i = (word >> 8) & 0xff`, `j = word & 0xff`
for the metadata word at `st`. -/
theorem setstate_r_rehomes (st : Int) (b : random_data) (w : World) :
    (setstate_r (some st) (some b) w).1 = 0 ∧
    (setstate_r (some st) (some b) w).2.2.mem (b.x - 1)
      = or32 (or32 (shl32 b.n 16) (shl32 b.i 8)) b.j ∧
    (∀ a : Int, a ≠ b.x - 1 → (setstate_r (some st) (some b) w).2.2.mem a = w.mem a) ∧
    (∀ t : Int, 0 ≤ t → (setstate_r (some st) (some b) w).2.2.mem (b.x + t) = w.mem (b.x + t)) ∧
    ((∀ t : Int, 0 ≤ t → st + t ≠ b.x - 1) →
      ∀ t : Int, 0 ≤ t → (setstate_r (some st) (some b) w).2.2.mem (st + t) = w.mem (st + t)) ∧
    (setstate_r (some st) (some b) w).2.2.errno = w.errno ∧
    (setstate_r (some st) (some b) w).2.1
      = some ⟨st + 1, sar ((setstate_r (some st) (some b) w).2.2.mem st) 16,
          and32 (sar ((setstate_r (some st) (some b) w).2.2.mem st) 8) 0xff,
          and32 ((setstate_r (some st) (some b) w).2.2.mem st) 0xff⟩ ∧
    (st ≠ b.x - 1 →
      (setstate_r (some st) (some b) w).2.1
        = some ⟨st + 1, sar (w.mem st) 16, and32 (sar (w.mem st) 8) 0xff,
            and32 (w.mem st) 0xff⟩) := by
  have hm : (setstate_r (some st) (some b) w).2.2 = savestate_r b w := rfl
  have hr : (setstate_r (some st) (some b) w).2.1
      = some (loadstate_r st b (savestate_r b w)) := rfl
  have hl : ∀ w1 : World, loadstate_r st b w1
      = ⟨st + 1, sar (w1.mem st) 16, and32 (sar (w1.mem st) 8) 0xff,
          and32 (w1.mem st) 0xff⟩ := by
    intro w1
    unfold loadstate_r
    simp only [add_sub_cancel_right]
  rw [hm, hr]
  refine ⟨rfl, savestate_r_mem_same b w, fun a ha => savestate_r_mem_other b w a ha,
    fun t ht => savestate_r_mem_other b w _ (by omega),
    fun hsep t ht => savestate_r_mem_other b w _ (hsep t ht), rfl, by rw [hl], ?_⟩
  intro hne
  rw [hl, savestate_r_mem_other b w st hne]


theorem setstate_r_rehomes_witness :
    (setstate_r (some 200) (some ⟨101, 7, 4, 1⟩)
      ⟨fun a => if a = 200 then 2032384 else 0, 0⟩).1 = 0 ∧
    (setstate_r (some 200) (some ⟨101, 7, 4, 1⟩)
      ⟨fun a => if a = 200 then 2032384 else 0, 0⟩).2.2.mem 100 = 459777 ∧
    (∀ t : Int, 0 ≤ t →
      (setstate_r (some 200) (some ⟨101, 7, 4, 1⟩)
        ⟨fun a => if a = 200 then 2032384 else 0, 0⟩).2.2.mem (200 + t)
        = (fun a : Int => if a = 200 then (2032384 : Int) else 0) (200 + t)) ∧
    (setstate_r (some 200) (some ⟨101, 7, 4, 1⟩)
      ⟨fun a => if a = 200 then 2032384 else 0, 0⟩).2.1 = some ⟨201, 31, 3, 0⟩ :=
  ⟨(setstate_r_rehomes 200 ⟨101, 7, 4, 1⟩ ⟨fun a => if a = 200 then 2032384 else 0, 0⟩).1,
    (setstate_r_rehomes 200 ⟨101, 7, 4, 1⟩
      ⟨fun a => if a = 200 then 2032384 else 0, 0⟩).2.1.trans (by decide),
    (setstate_r_rehomes 200 ⟨101, 7, 4, 1⟩
      ⟨fun a => if a = 200 then 2032384 else 0, 0⟩).2.2.2.2.1
        (fun t ht => by simp only; omega),
    ((setstate_r_rehomes 200 ⟨101, 7, 4, 1⟩
      ⟨fun a => if a = 200 then 2032384 else 0, 0⟩).2.2.2.2.2.2.2 (by decide)).trans
        (by decide)⟩

/-- The table cells after seeding at a degree `1 <= n <= 63`, as signed
values: they depend on the seed alone. -/
theorem srandom_r_present_cell (seed : Nat) (buf : random_data) (w : World)
    (h1 : 1 ≤ buf.n) (h63 : buf.n ≤ 63) (t : Int) (ht0 : 0 ≤ t) (ht : t < buf.n) :
    (srandom_r_present seed buf w).world.mem (buf.x + t) =
      if t = 0 then or32 (toS32 (specLcg64 seed 1 / 4294967296)) 1
      else toS32 (specLcg64 seed (t.toNat + 1) / 4294967296) := by
  rw [(srandom_r_present_pos seed buf w (by omega) h63).2.2]
  by_cases h0 : t = 0
  · subst h0
    rw [if_pos rfl, add_zero, Mem.write_same, srandom_loop_spec, if_pos (by omega)]
    have : (buf.x - buf.x - 0).toNat = 0 := by omega
    rw [this]
  · rw [if_neg h0, Mem.write_other _ _ _ _ (by omega), srandom_loop_spec, if_pos (by omega)]
    have : (buf.x + t - buf.x - 0).toNat = t.toNat := by omega
    rw [this]

theorem specDegree_small (size : Nat) : specDegree size = 0 ↔ size < 32 := by
  unfold specDegree
  split_ifs <;> omega

/-- C12: two runs of `initstate_r` with the same seed and with sizes of at
least 8 that select the same degree (in particular the same size), started from
any two records, any two heaps and any two buffer addresses, both return 0 and
are followed by the same `k` values of `random_r`, for every `k`. -/
theorem initstate_r_deterministic (seed : Nat) (size1 size2 : Nat) (state1 state2 : Int)
    (buf1 buf2 : random_data) (w1 w2 : World) (k : Nat)
    (h1 : 8 ≤ size1) (h2 : 8 ≤ size2) (hd : specDegree size1 = specDegree size2) :
    (initstate_r seed state1 size1 buf1 w1).ret = 0 ∧
    (initstate_r seed state2 size2 buf2 w2).ret = 0 ∧
    (random_r_iter k (initstate_r seed state1 size1 buf1 w1).buf
        (initstate_r seed state1 size1 buf1 w1).world.mem).1
      = (random_r_iter k (initstate_r seed state2 size2 buf2 w2).buf
          (initstate_r seed state2 size2 buf2 w2).world.mem).1 := by
  refine ⟨by rw [initstate_r_eq seed state1 size1 buf1 w1 (by omega)],
    by rw [initstate_r_eq seed state2 size2 buf2 w2 (by omega)], ?_⟩
  by_cases hs : size1 < 32
  · have hs2 : size2 < 32 := by
      rw [← specDegree_small, ← hd, specDegree_small]; exact hs
    have key : ∀ (state : Int) (size : Nat) (buf : random_data) (w : World),
        8 ≤ size → size < 32 →
        (random_r_iter k (initstate_r seed state size buf w).buf
          (initstate_r seed state size buf w).world.mem).1
          = (List.range k).map (fun t => ((specLcg31 seed (t + 1) : Nat) : Int)) := by
      intro state size buf w h8 h32
      have hb := initstate_r_buf_small seed state size buf w h8 h32
      have hm := (initstate_r_mem_small seed state size buf w h8 h32).1
      refine (random_r_iter_zero _ (by rw [hb]) k _ seed ?_).1
      rw [hb]
      simp only
      rw [hm, toU32_toS32]
      omega
    rw [key state1 size1 buf1 w1 h1 hs, key state2 size2 buf2 w2 h2 hs2]
  · have hs2 : ¬ size2 < 32 := by
      rw [← specDegree_small, ← hd, specDegree_small]; exact hs
    have hc := specDegree_cases size1 (by omega)
    have hb1 := initstate_r_buf seed state1 size1 buf1 w1 (by omega)
    have hb2 := initstate_r_buf seed state2 size2 buf2 w2 (by omega)
    have hL : 0 ≤ specLag (specDegree size1) ∧ specLag (specDegree size1) < specDegree size1 := by
      unfold specLag; split_ifs <;> omega
    apply random_r_iter_agree k
    · rw [hb1, hb2]; exact hd
    · rw [hb1, hb2, hd]
    · rw [hb1, hb2]
    · rw [hb1]; simp only; omega
    · rw [hb1]
      exact Or.inr ⟨hL.1, hL.2, le_refl 0, by simp only; omega⟩
    · intro t ht0 ht
      rw [hb1] at ht ⊢
      rw [hb2]
      simp only at ht ⊢
      have ht1 : t < specDegree size1 := by omega
      rw [initstate_r_mem_other seed state1 size1 buf1 w1 (by omega) _ (by omega),
        initstate_r_mem_other seed state2 size2 buf2 w2 (by omega) _ (by omega)]
      have c1 := srandom_r_present_cell seed ⟨state1 + 1, specDegree size1, buf1.i, buf1.j⟩
        (savestate_r buf1 w1) (by simp only; omega) (by simp only; omega) t ht0 ht1
      have c2 := srandom_r_present_cell seed ⟨state2 + 1, specDegree size2, buf2.i, buf2.j⟩
        (savestate_r buf2 w2) (by simp only; omega) (by simp only; omega) t ht0
        (by simp only; omega)
      simp only at c1 c2
      rw [c1, c2]

theorem initstate_r_deterministic_witness :
    (8 ≤ 32 ∧ 8 ≤ 40 ∧ specDegree 32 = specDegree 40) ∧
    (initstate_r 9 100 32 ⟨0, 0, 0, 0⟩ ⟨fun _ => 0, 0⟩).ret = 0 ∧
    (initstate_r 9 500 40 ⟨3, 2, 1, 6⟩ ⟨fun a => a, 4⟩).ret = 0 ∧
    (random_r_iter 5 (initstate_r 9 100 32 ⟨0, 0, 0, 0⟩ ⟨fun _ => 0, 0⟩).buf
        (initstate_r 9 100 32 ⟨0, 0, 0, 0⟩ ⟨fun _ => 0, 0⟩).world.mem).1
      = (random_r_iter 5 (initstate_r 9 500 40 ⟨3, 2, 1, 6⟩ ⟨fun a => a, 4⟩).buf
          (initstate_r 9 500 40 ⟨3, 2, 1, 6⟩ ⟨fun a => a, 4⟩).world.mem).1 :=
  ⟨by decide, initstate_r_deterministic 9 32 40 100 500 ⟨0, 0, 0, 0⟩ ⟨3, 2, 1, 6⟩
    ⟨fun _ => 0, 0⟩ ⟨fun a => a, 4⟩ 5 (by decide) (by decide) (by decide)⟩


theorem wrap32_mod_two (v : Int) : wrap32 v % 2 = v % 2 := by
  unfold wrap32 toU32 toS32; split <;> omega

theorem toU32_wrap32_add (a b : Int) :
    toU32 (wrap32 (a + b)) = (toU32 a + toU32 b) % 4294967296 := by
  unfold wrap32
  rw [toU32_toS32]
  unfold toU32
  omega

/-- The heap after one call of `random_r` at a degree other than 0. -/
theorem random_r_present_mem (b : random_data) (m : Mem) (hn : b.n ≠ 0) :
    (random_r_present b m).2.1
      = m.write (b.x + b.i) (wrap32 (m (b.x + b.i) + m (b.x + b.j))) := by
  unfold random_r_present
  rw [if_neg hn]

theorem succ_emod (n i : Int) (hi0 : 0 ≤ i) (hi : i < n) :
    (if i + 1 = n then 0 else i + 1) = (i + 1) % n := by
  split_ifs with h
  · rw [h, Int.emod_self]
  · rw [Int.emod_eq_of_lt (by omega) (by omega)]

/-- C15: at a degree `n > 0` (a C `int`, so below `2^31`) with `0 <= i,j < n`,
`random_r` returns 0, leaves
`x` and `n`, replaces `table[i]` by `(table[i] + table[j]) mod 2^32` taken on
the words as they were before the call (also when `i = j`), leaves every other
word of the heap as it was, and sets `i` to `(i+1) mod n` and `j` to
`(j+1) mod n`. -/
theorem random_r_step (b : random_data) (r : Int) (w : World)
    (hn : 0 < b.n) (hn31 : b.n < 2147483648)
    (hi0 : 0 ≤ b.i) (hi : b.i < b.n) (hj0 : 0 ≤ b.j) (hj : b.j < b.n) :
    (random_r (some b) (some r) w).ret = 0 ∧
    (random_r (some b) (some r) w).buf
      = some ⟨b.x, b.n, (b.i + 1) % b.n, (b.j + 1) % b.n⟩ ∧
    toU32 ((random_r (some b) (some r) w).world.mem (b.x + b.i))
      = (toU32 (w.mem (b.x + b.i)) + toU32 (w.mem (b.x + b.j))) % 4294967296 ∧
    ∀ a : Int, a ≠ b.x + b.i → (random_r (some b) (some r) w).world.mem a = w.mem a := by
  have p := random_r_present_pos b w.mem hn hn31 hi0 hi hj0 hj
  have hb : (random_r (some b) (some r) w).buf = some (random_r_present b w.mem).1 := rfl
  have hm : (random_r (some b) (some r) w).world.mem = (random_r_present b w.mem).2.1 := rfl
  rw [hb, hm, p.1, p.2.1, succ_emod b.n b.i hi0 hi, succ_emod b.n b.j hj0 hj]
  refine ⟨rfl, rfl, ?_, ?_⟩
  · rw [Mem.write_same, toU32_wrap32_add]
  · intro a ha
    exact Mem.write_other _ _ _ _ ha

theorem random_r_step_witness :
    ((0 : Int) < 7 ∧ (7 : Int) < 2147483648 ∧ (0 : Int) ≤ 6 ∧ (6 : Int) < 7 ∧
      (0 : Int) ≤ 3 ∧ (3 : Int) < 7) ∧
    (random_r (some ⟨101, 7, 6, 3⟩) (some 0) ⟨fun a => a - 2147483700, 0⟩).ret = 0 ∧
    (random_r (some ⟨101, 7, 6, 3⟩) (some 0) ⟨fun a => a - 2147483700, 0⟩).buf
      = some ⟨101, 7, (6 + 1) % 7, (3 + 1) % 7⟩ ∧
    toU32 ((random_r (some ⟨101, 7, 6, 3⟩) (some 0)
        ⟨fun a => a - 2147483700, 0⟩).world.mem (101 + 6))
      = (toU32 (101 + 6 - 2147483700) + toU32 (101 + 3 - 2147483700)) % 4294967296 ∧
    ∀ a : Int, a ≠ 101 + 6 →
      (random_r (some ⟨101, 7, 6, 3⟩) (some 0) ⟨fun a => a - 2147483700, 0⟩).world.mem a
        = a - 2147483700 :=
  ⟨by decide, random_r_step ⟨101, 7, 6, 3⟩ 0 ⟨fun a => a - 2147483700, 0⟩
    (by decide) (by decide) (by decide) (by decide) (by decide) (by decide)⟩


/-- The record after `k` calls of `random_r` at a degree `0 < n < 2^31` with
indices in range, one call unfolded. -/
theorem random_r_iter_succ_buf (k : Nat) (b : random_data) (m : Mem) :
    (random_r_iter (k + 1) b m).2.1
      = (random_r_iter k (random_r_present b m).1 (random_r_present b m).2.1).2.1 ∧
    (random_r_iter (k + 1) b m).2.2
      = (random_r_iter k (random_r_present b m).1 (random_r_present b m).2.1).2.2 := by
  simp only [random_r_iter, and_self]

/-- C16: at a degree `0 < n` (a C `int`, so below `2^31`) with `0 <= i,j < n`,
the record after `random_r`
has the same `n` and again `0 <= i,j < n`; and the record reached from
`initstate_r` with `size >= 32` by any number of `random_r` calls has the
degree selected for `size` and `0 <= i,j < n`. -/
theorem index_bound_invariant (b : random_data) (r : Int) (w : World)
    (seed : Nat) (state : Int) (size : Nat) (buf0 : random_data) (w0 : World) (k : Nat)
    (hn : 0 < b.n) (hn31 : b.n < 2147483648)
    (hi0 : 0 ≤ b.i) (hi : b.i < b.n) (hj0 : 0 ≤ b.j) (hj : b.j < b.n) (hs : 32 ≤ size) :
    (∃ b1 : random_data, (random_r (some b) (some r) w).buf = some b1 ∧ b1.n = b.n ∧
      0 ≤ b1.i ∧ b1.i < b1.n ∧ 0 ≤ b1.j ∧ b1.j < b1.n) ∧
    (initstate_r seed state size buf0 w0).ret = 0 ∧
    (random_r_iter k (initstate_r seed state size buf0 w0).buf
        (initstate_r seed state size buf0 w0).world.mem).2.1.n = specDegree size ∧
    0 < specDegree size ∧
    0 ≤ (random_r_iter k (initstate_r seed state size buf0 w0).buf
        (initstate_r seed state size buf0 w0).world.mem).2.1.i ∧
    (random_r_iter k (initstate_r seed state size buf0 w0).buf
        (initstate_r seed state size buf0 w0).world.mem).2.1.i < specDegree size ∧
    0 ≤ (random_r_iter k (initstate_r seed state size buf0 w0).buf
        (initstate_r seed state size buf0 w0).world.mem).2.1.j ∧
    (random_r_iter k (initstate_r seed state size buf0 w0).buf
        (initstate_r seed state size buf0 w0).world.mem).2.1.j < specDegree size := by
  constructor
  · have p := random_r_present_pos b w.mem hn hn31 hi0 hi hj0 hj
    refine ⟨(random_r_present b w.mem).1, rfl, ?_⟩
    rw [p.1]
    simp only
    refine ⟨trivial, ?_, ?_, ?_, ?_⟩ <;> split_ifs <;> omega
  · have hc := specDegree_cases size hs
    have hb := initstate_r_buf seed state size buf0 w0 hs
    have hL : 0 ≤ specLag (specDegree size) ∧ specLag (specDegree size) < specDegree size := by
      unfold specLag; split_ifs <;> omega
    obtain ⟨_, i2, _, i4⟩ := random_r_iter_inv k (initstate_r seed state size buf0 w0).buf
      (initstate_r seed state size buf0 w0).world.mem (by rw [hb]; simp only; omega)
      (by rw [hb]; exact Or.inr ⟨hL.1, hL.2, le_refl 0, by simp only; omega⟩)
    rw [hb] at i2 i4
    simp only at i2 i4
    have i5 := i4 (by omega)
    refine ⟨by rw [initstate_r_eq seed state size buf0 w0 (by omega)], ?_, by omega, ?_⟩
    · rw [← hb] at i2; exact i2
    · rw [← hb] at i5; exact i5

theorem index_bound_invariant_witness :
    ((0 : Int) < 7 ∧ (7 : Int) < 2147483648 ∧ (0 : Int) ≤ 6 ∧ (6 : Int) < 7 ∧
      (0 : Int) ≤ 3 ∧ (3 : Int) < 7 ∧ 32 ≤ 64) ∧
    (∃ b1 : random_data,
      (random_r (some ⟨101, 7, 6, 3⟩) (some 0) ⟨fun _ => 0, 0⟩).buf = some b1 ∧ b1.n = 7 ∧
      0 ≤ b1.i ∧ b1.i < b1.n ∧ 0 ≤ b1.j ∧ b1.j < b1.n) ∧
    (initstate_r 1 100 64 ⟨0, 0, 0, 0⟩ ⟨fun _ => 0, 0⟩).ret = 0 ∧
    (random_r_iter 20 (initstate_r 1 100 64 ⟨0, 0, 0, 0⟩ ⟨fun _ => 0, 0⟩).buf
        (initstate_r 1 100 64 ⟨0, 0, 0, 0⟩ ⟨fun _ => 0, 0⟩).world.mem).2.1.n = specDegree 64 ∧
    0 < specDegree 64 ∧
    0 ≤ (random_r_iter 20 (initstate_r 1 100 64 ⟨0, 0, 0, 0⟩ ⟨fun _ => 0, 0⟩).buf
        (initstate_r 1 100 64 ⟨0, 0, 0, 0⟩ ⟨fun _ => 0, 0⟩).world.mem).2.1.i ∧
    (random_r_iter 20 (initstate_r 1 100 64 ⟨0, 0, 0, 0⟩ ⟨fun _ => 0, 0⟩).buf
        (initstate_r 1 100 64 ⟨0, 0, 0, 0⟩ ⟨fun _ => 0, 0⟩).world.mem).2.1.i < specDegree 64 ∧
    0 ≤ (random_r_iter 20 (initstate_r 1 100 64 ⟨0, 0, 0, 0⟩ ⟨fun _ => 0, 0⟩).buf
        (initstate_r 1 100 64 ⟨0, 0, 0, 0⟩ ⟨fun _ => 0, 0⟩).world.mem).2.1.j ∧
    (random_r_iter 20 (initstate_r 1 100 64 ⟨0, 0, 0, 0⟩ ⟨fun _ => 0, 0⟩).buf
        (initstate_r 1 100 64 ⟨0, 0, 0, 0⟩ ⟨fun _ => 0, 0⟩).world.mem).2.1.j < specDegree 64 :=
  ⟨by decide, index_bound_invariant ⟨101, 7, 6, 3⟩ 0 ⟨fun _ => 0, 0⟩ 1 100 64 ⟨0, 0, 0, 0⟩
    ⟨fun _ => 0, 0⟩ 20 (by decide) (by decide) (by decide) (by decide) (by decide)
    (by decide) (by decide)⟩

/-- C17, as stated, fails at degree 1: `srandom_r` returns 0 and leaves
`i = 1`, which is not below `n = 1`. -/
theorem srandom_r_degree_one_index :
    (1 : Int) ≤ 1 ∧ (1 : Int) ≤ 63 ∧
    (srandom_r 1 (some ⟨101, 1, 0, 0⟩) ⟨fun _ => 0, 0⟩).1 = 0 ∧
    (srandom_r 1 (some ⟨101, 1, 0, 0⟩) ⟨fun _ => 0, 0⟩).2.1 = some ⟨101, 1, 1, 0⟩ ∧
    ¬ ((1 : Int) < 1) := by
  decide

/-- C17, amended: for every record of degree `2 <= n <= 63` (the unvalidated
degrees 2 to 6 included), `srandom_r` returns 0, keeps `n` and leaves
`0 <= i,j < n`: `i` is 3 at the degrees 31 and 7 and 1 otherwise, `j` is 0. -/
theorem srandom_r_index_bound (seed : Nat) (buf : random_data) (w : World)
    (h2 : 2 ≤ buf.n) (h63 : buf.n ≤ 63) :
    srandom_r seed (some buf) w
      = (0, some (srandom_r_present seed buf w).buf, (srandom_r_present seed buf w).world) ∧
    (srandom_r_present seed buf w).buf.n = buf.n ∧
    0 ≤ (srandom_r_present seed buf w).buf.i ∧
    (srandom_r_present seed buf w).buf.i < (srandom_r_present seed buf w).buf.n ∧
    0 ≤ (srandom_r_present seed buf w).buf.j ∧
    (srandom_r_present seed buf w).buf.j < (srandom_r_present seed buf w).buf.n := by
  have p := srandom_r_present_pos seed buf w (by omega) h63
  have hr : srandom_r seed (some buf) w
      = ((srandom_r_present seed buf w).ret, some (srandom_r_present seed buf w).buf,
          (srandom_r_present seed buf w).world) := rfl
  refine ⟨by rw [hr, p.1], by rw [p.2.1], ?_, ?_, ?_, ?_⟩ <;> rw [p.2.1] <;> simp only <;>
    (try unfold specLag) <;> (try split_ifs) <;> omega

theorem srandom_r_index_bound_witness :
    ((2 : Int) ≤ 2 ∧ (2 : Int) ≤ 63) ∧
    srandom_r 4 (some ⟨101, 2, 9, 9⟩) ⟨fun _ => 0, 0⟩
      = (0, some (srandom_r_present 4 ⟨101, 2, 9, 9⟩ ⟨fun _ => 0, 0⟩).buf,
          (srandom_r_present 4 ⟨101, 2, 9, 9⟩ ⟨fun _ => 0, 0⟩).world) ∧
    (srandom_r_present 4 ⟨101, 2, 9, 9⟩ ⟨fun _ => 0, 0⟩).buf.n = 2 ∧
    0 ≤ (srandom_r_present 4 ⟨101, 2, 9, 9⟩ ⟨fun _ => 0, 0⟩).buf.i ∧
    (srandom_r_present 4 ⟨101, 2, 9, 9⟩ ⟨fun _ => 0, 0⟩).buf.i
      < (srandom_r_present 4 ⟨101, 2, 9, 9⟩ ⟨fun _ => 0, 0⟩).buf.n ∧
    0 ≤ (srandom_r_present 4 ⟨101, 2, 9, 9⟩ ⟨fun _ => 0, 0⟩).buf.j ∧
    (srandom_r_present 4 ⟨101, 2, 9, 9⟩ ⟨fun _ => 0, 0⟩).buf.j
      < (srandom_r_present 4 ⟨101, 2, 9, 9⟩ ⟨fun _ => 0, 0⟩).buf.n :=
  ⟨by decide, srandom_r_index_bound 4 ⟨101, 2, 9, 9⟩ ⟨fun _ => 0, 0⟩ (by decide) (by decide)⟩


theorem lag_step (n i j : Int) :
    ((if i + 1 = n then 0 else i + 1) - (if j + 1 = n then 0 else j + 1)) % n
      = (i - j) % n := by
  have key : ∀ a c : Int, (∃ q : Int, c - a = n * q) → a % n = c % n := by
    intro a c h
    exact (Int.modEq_iff_dvd.2 h : a ≡ c [ZMOD n])
  split_ifs
  · exact key _ _ ⟨0, by omega⟩
  · exact key _ _ ⟨1, by omega⟩
  · exact key _ _ ⟨-1, by omega⟩
  · exact key _ _ ⟨0, by omega⟩

/-- Stepping keeps `(i - j) mod n`. -/
theorem random_r_iter_lag (k : Nat) : ∀ (b : random_data) (m : Mem),
    0 < b.n → b.n < 2147483648 → 0 ≤ b.i → b.i < b.n → 0 ≤ b.j → b.j < b.n →
    (random_r_iter k b m).2.1.n = b.n ∧
    (random_r_iter k b m).2.1.x = b.x ∧
    ((random_r_iter k b m).2.1.i - (random_r_iter k b m).2.1.j) % b.n = (b.i - b.j) % b.n := by
  induction k with
  | zero => intro b m _ _ _ _ _ _; exact ⟨rfl, rfl, rfl⟩
  | succ k ih =>
    intro b m hn hn31 hi0 hi hj0 hj
    have p := random_r_present_pos b m hn hn31 hi0 hi hj0 hj
    rw [(random_r_iter_succ_buf k b m).1, p.1]
    have h := ih ⟨b.x, b.n, if b.i + 1 = b.n then 0 else b.i + 1,
        if b.j + 1 = b.n then 0 else b.j + 1⟩ (random_r_present b m).2.1 hn hn31
      (by simp only; split_ifs <;> omega) (by simp only; split_ifs <;> omega)
      (by simp only; split_ifs <;> omega) (by simp only; split_ifs <;> omega)
    simp only at h
    exact ⟨h.1, h.2.1, by rw [h.2.2, lag_step b.n b.i b.j]⟩

/-- C18: at a degree `0 < n` (a C `int`, so below `2^31`) with `0 <= i,j < n`,
`random_r` keeps
`(i - j) mod n`; so after `srandom_r` on a degree in `{7,15,31,63}` and any
number of `random_r` calls, `(i - j) mod n` is 3 for the degrees 31 and 7 and 1
for 15 and 63, and `i` differs from `j`. -/
theorem lag_distance_constant (b : random_data) (r : Int) (w : World)
    (seed : Nat) (x n i j : Int) (w0 : World) (k : Nat)
    (hn : 0 < b.n) (hn31 : b.n < 2147483648)
    (hi0 : 0 ≤ b.i) (hi : b.i < b.n) (hj0 : 0 ≤ b.j) (hj : b.j < b.n)
    (hd : n = 7 ∨ n = 15 ∨ n = 31 ∨ n = 63) :
    (∃ b1 : random_data, (random_r (some b) (some r) w).buf = some b1 ∧ b1.n = b.n ∧
      (b1.i - b1.j) % b1.n = (b.i - b.j) % b.n) ∧
    srandom_r seed (some ⟨x, n, i, j⟩) w0
      = (0, some (srandom_r_present seed ⟨x, n, i, j⟩ w0).buf,
          (srandom_r_present seed ⟨x, n, i, j⟩ w0).world) ∧
    (random_r_iter k (srandom_r_present seed ⟨x, n, i, j⟩ w0).buf
        (srandom_r_present seed ⟨x, n, i, j⟩ w0).world.mem).2.1.n = n ∧
    ((random_r_iter k (srandom_r_present seed ⟨x, n, i, j⟩ w0).buf
        (srandom_r_present seed ⟨x, n, i, j⟩ w0).world.mem).2.1.i
      - (random_r_iter k (srandom_r_present seed ⟨x, n, i, j⟩ w0).buf
        (srandom_r_present seed ⟨x, n, i, j⟩ w0).world.mem).2.1.j) % n
      = (if n = 31 ∨ n = 7 then 3 else 1) ∧
    (random_r_iter k (srandom_r_present seed ⟨x, n, i, j⟩ w0).buf
        (srandom_r_present seed ⟨x, n, i, j⟩ w0).world.mem).2.1.i
      ≠ (random_r_iter k (srandom_r_present seed ⟨x, n, i, j⟩ w0).buf
        (srandom_r_present seed ⟨x, n, i, j⟩ w0).world.mem).2.1.j := by
  have p := srandom_r_present_pos seed ⟨x, n, i, j⟩ w0 (by simp only; omega)
    (by simp only; omega)
  simp only at p
  have hr : srandom_r seed (some ⟨x, n, i, j⟩) w0
      = ((srandom_r_present seed ⟨x, n, i, j⟩ w0).ret,
          some (srandom_r_present seed ⟨x, n, i, j⟩ w0).buf,
          (srandom_r_present seed ⟨x, n, i, j⟩ w0).world) := rfl
  have hL : 0 ≤ specLag n ∧ specLag n < n := by
    unfold specLag; split_ifs <;> omega
  have hlag := random_r_iter_lag k ⟨x, n, specLag n, 0⟩
    (srandom_r_present seed ⟨x, n, i, j⟩ w0).world.mem (by simp only; omega)
    (by simp only; omega) hL.1 hL.2 (le_refl 0) (by simp only; omega)
  simp only at hlag
  have hval : (specLag n - 0) % n = (if n = 31 ∨ n = 7 then 3 else 1) := by
    unfold specLag
    rcases hd with e | e | e | e <;> subst e <;> decide
  rw [hval] at hlag
  refine ⟨?_, by rw [hr, p.1], by rw [p.2.1]; exact hlag.1, by rw [p.2.1]; exact hlag.2.2, ?_⟩
  · have q := random_r_present_pos b w.mem hn hn31 hi0 hi hj0 hj
    refine ⟨(random_r_present b w.mem).1, rfl, by rw [q.1], ?_⟩
    rw [q.1]
    exact lag_step b.n b.i b.j
  · rw [p.2.1]
    intro he
    have h3 := hlag.2.2
    rw [he, sub_self, Int.zero_emod] at h3
    split_ifs at h3 <;> omega

theorem lag_distance_constant_witness :
    ((0 : Int) < 7 ∧ (7 : Int) < 2147483648 ∧ (0 : Int) ≤ 6 ∧ (6 : Int) < 7 ∧
      (0 : Int) ≤ 3 ∧ (3 : Int) < 7 ∧
      ((31 : Int) = 7 ∨ (31 : Int) = 15 ∨ (31 : Int) = 31 ∨ (31 : Int) = 63)) ∧
    (∃ b1 : random_data,
      (random_r (some ⟨101, 7, 6, 3⟩) (some 0) ⟨fun _ => 0, 0⟩).buf = some b1 ∧ b1.n = 7 ∧
      (b1.i - b1.j) % b1.n = (6 - 3) % 7) ∧
    srandom_r 2 (some ⟨101, 31, 0, 0⟩) ⟨fun _ => 0, 0⟩
      = (0, some (srandom_r_present 2 ⟨101, 31, 0, 0⟩ ⟨fun _ => 0, 0⟩).buf,
          (srandom_r_present 2 ⟨101, 31, 0, 0⟩ ⟨fun _ => 0, 0⟩).world) ∧
    (random_r_iter 40 (srandom_r_present 2 ⟨101, 31, 0, 0⟩ ⟨fun _ => 0, 0⟩).buf
        (srandom_r_present 2 ⟨101, 31, 0, 0⟩ ⟨fun _ => 0, 0⟩).world.mem).2.1.n = 31 ∧
    ((random_r_iter 40 (srandom_r_present 2 ⟨101, 31, 0, 0⟩ ⟨fun _ => 0, 0⟩).buf
        (srandom_r_present 2 ⟨101, 31, 0, 0⟩ ⟨fun _ => 0, 0⟩).world.mem).2.1.i
      - (random_r_iter 40 (srandom_r_present 2 ⟨101, 31, 0, 0⟩ ⟨fun _ => 0, 0⟩).buf
        (srandom_r_present 2 ⟨101, 31, 0, 0⟩ ⟨fun _ => 0, 0⟩).world.mem).2.1.j) % 31
      = (if (31 : Int) = 31 ∨ (31 : Int) = 7 then 3 else 1) ∧
    (random_r_iter 40 (srandom_r_present 2 ⟨101, 31, 0, 0⟩ ⟨fun _ => 0, 0⟩).buf
        (srandom_r_present 2 ⟨101, 31, 0, 0⟩ ⟨fun _ => 0, 0⟩).world.mem).2.1.i
      ≠ (random_r_iter 40 (srandom_r_present 2 ⟨101, 31, 0, 0⟩ ⟨fun _ => 0, 0⟩).buf
        (srandom_r_present 2 ⟨101, 31, 0, 0⟩ ⟨fun _ => 0, 0⟩).world.mem).2.1.j :=
  ⟨by decide, lag_distance_constant ⟨101, 7, 6, 3⟩ 0 ⟨fun _ => 0, 0⟩ 2 101 31 0 0
    ⟨fun _ => 0, 0⟩ 40 (by decide) (by decide) (by decide) (by decide) (by decide)
    (by decide) (by decide)⟩


/-- One call of `random_r` keeps an odd word among the active table words when
`i` differs from `j`. -/
theorem random_r_present_odd (b : random_data) (m : Mem) (hn : 0 < b.n)
    (hi0 : 0 ≤ b.i) (hi : b.i < b.n) (hj0 : 0 ≤ b.j) (hj : b.j < b.n) (hij : b.i ≠ b.j)
    (hodd : ∃ t : Int, 0 ≤ t ∧ t < b.n ∧ m (b.x + t) % 2 = 1) :
    ∃ t : Int, 0 ≤ t ∧ t < b.n ∧ (random_r_present b m).2.1 (b.x + t) % 2 = 1 := by
  rw [random_r_present_mem b m (by omega)]
  obtain ⟨t, ht0, ht, hto⟩ := hodd
  by_cases hti : t = b.i
  · subst hti
    by_cases hjo : m (b.x + b.j) % 2 = 1
    · refine ⟨b.j, hj0, hj, ?_⟩
      rw [Mem.write_other _ _ _ _ (by omega)]
      exact hjo
    · refine ⟨b.i, hi0, hi, ?_⟩
      rw [Mem.write_same, wrap32_mod_two]
      omega
  · refine ⟨t, ht0, ht, ?_⟩
    rw [Mem.write_other _ _ _ _ (by omega)]
    exact hto

/-- Any number of calls of `random_r` keeps an odd word among the active table
words when `i` differs from `j`. -/
theorem random_r_iter_odd (k : Nat) : ∀ (b : random_data) (m : Mem),
    0 < b.n → b.n < 2147483648 → 0 ≤ b.i → b.i < b.n → 0 ≤ b.j → b.j < b.n → b.i ≠ b.j →
    (∃ t : Int, 0 ≤ t ∧ t < b.n ∧ m (b.x + t) % 2 = 1) →
    ∃ t : Int, 0 ≤ t ∧ t < b.n ∧ (random_r_iter k b m).2.2 (b.x + t) % 2 = 1 := by
  induction k with
  | zero => intro b m _ _ _ _ _ _ _ h; exact h
  | succ k ih =>
    intro b m hn hn31 hi0 hi hj0 hj hij hodd
    have p := random_r_present_pos b m hn hn31 hi0 hi hj0 hj
    have ho := random_r_present_odd b m hn hi0 hi hj0 hj hij hodd
    rw [(random_r_iter_succ_buf k b m).2, p.1]
    have h := ih ⟨b.x, b.n, if b.i + 1 = b.n then 0 else b.i + 1,
        if b.j + 1 = b.n then 0 else b.j + 1⟩ (random_r_present b m).2.1 hn hn31
      (by simp only; split_ifs <;> omega) (by simp only; split_ifs <;> omega)
      (by simp only; split_ifs <;> omega) (by simp only; split_ifs <;> omega)
      (by simp only; split_ifs <;> omega) ho
    exact h

/-- C19: at a degree `0 < n` with `0 <= i,j < n` and `i != j`, if some active
table word is odd before `random_r`, some active table word is odd after it;
so after `srandom_r` on a degree in `{7,15,31,63}` and any number of `random_r`
calls some active table word is odd. -/
theorem odd_word_preserved (b : random_data) (r : Int) (w : World)
    (seed : Nat) (x n i j : Int) (w0 : World) (k : Nat)
    (hn : 0 < b.n) (hi0 : 0 ≤ b.i) (hi : b.i < b.n) (hj0 : 0 ≤ b.j) (hj : b.j < b.n)
    (hij : b.i ≠ b.j)
    (hodd : ∃ t : Int, 0 ≤ t ∧ t < b.n ∧ w.mem (b.x + t) % 2 = 1)
    (hd : n = 7 ∨ n = 15 ∨ n = 31 ∨ n = 63) :
    (∃ t : Int, 0 ≤ t ∧ t < b.n ∧
      (random_r (some b) (some r) w).world.mem (b.x + t) % 2 = 1) ∧
    srandom_r seed (some ⟨x, n, i, j⟩) w0
      = (0, some (srandom_r_present seed ⟨x, n, i, j⟩ w0).buf,
          (srandom_r_present seed ⟨x, n, i, j⟩ w0).world) ∧
    ∃ t : Int, 0 ≤ t ∧ t < n ∧
      (random_r_iter k (srandom_r_present seed ⟨x, n, i, j⟩ w0).buf
        (srandom_r_present seed ⟨x, n, i, j⟩ w0).world.mem).2.2 (x + t) % 2 = 1 := by
  have p := srandom_r_present_pos seed ⟨x, n, i, j⟩ w0 (by simp only; omega)
    (by simp only; omega)
  simp only at p
  have hr : srandom_r seed (some ⟨x, n, i, j⟩) w0
      = ((srandom_r_present seed ⟨x, n, i, j⟩ w0).ret,
          some (srandom_r_present seed ⟨x, n, i, j⟩ w0).buf,
          (srandom_r_present seed ⟨x, n, i, j⟩ w0).world) := rfl
  have hL : 0 < specLag n ∧ specLag n < n := by
    unfold specLag; split_ifs <;> omega
  have hw := srandom_r_present_word seed ⟨x, n, i, j⟩ w0 (by simp only; omega)
    (by simp only; omega) 0 (by simp only [Nat.cast_zero]; omega)
  simp only [Nat.cast_zero, add_zero] at hw
  have hodd0 : (srandom_r_present seed ⟨x, n, i, j⟩ w0).world.mem x % 2 = 1 := by
    have h2 : specSeedWord seed 0 % 2 = 1 := by
      unfold specSeedWord
      rw [if_pos rfl, Nat.or_mod_two_eq_one]
      right; rfl
    rw [← hw] at h2
    unfold toU32 at h2
    omega
  refine ⟨random_r_present_odd b w.mem hn hi0 hi hj0 hj hij hodd, by rw [hr, p.1], ?_⟩
  rw [p.2.1]
  exact random_r_iter_odd k ⟨x, n, specLag n, 0⟩ _ (by simp only; omega)
    (by simp only; omega) (by simp only; omega) hL.2 (le_refl 0) (by simp only; omega)
    (by simp only; omega) ⟨0, le_refl 0, by simp only; omega, by simpa using hodd0⟩

theorem odd_word_preserved_witness :
    ((0 : Int) < 7 ∧ (0 : Int) ≤ 6 ∧ (6 : Int) < 7 ∧ (0 : Int) ≤ 3 ∧ (3 : Int) < 7 ∧
      (6 : Int) ≠ 3 ∧
      (∃ t : Int, 0 ≤ t ∧ t < 7 ∧ (fun a : Int => a) (101 + t) % 2 = 1) ∧
      ((15 : Int) = 7 ∨ (15 : Int) = 15 ∨ (15 : Int) = 31 ∨ (15 : Int) = 63)) ∧
    (∃ t : Int, 0 ≤ t ∧ t < 7 ∧
      (random_r (some ⟨101, 7, 6, 3⟩) (some 0) ⟨fun a => a, 0⟩).world.mem (101 + t) % 2 = 1) ∧
    srandom_r 2 (some ⟨101, 15, 0, 0⟩) ⟨fun _ => 0, 0⟩
      = (0, some (srandom_r_present 2 ⟨101, 15, 0, 0⟩ ⟨fun _ => 0, 0⟩).buf,
          (srandom_r_present 2 ⟨101, 15, 0, 0⟩ ⟨fun _ => 0, 0⟩).world) ∧
    ∃ t : Int, 0 ≤ t ∧ t < 15 ∧
      (random_r_iter 30 (srandom_r_present 2 ⟨101, 15, 0, 0⟩ ⟨fun _ => 0, 0⟩).buf
        (srandom_r_present 2 ⟨101, 15, 0, 0⟩ ⟨fun _ => 0, 0⟩).world.mem).2.2 (101 + t) % 2
        = 1 :=
  ⟨⟨by decide, by decide, by decide, by decide, by decide, by decide,
      ⟨0, by decide, by decide, by decide⟩, by decide⟩,
    odd_word_preserved ⟨101, 7, 6, 3⟩ 0 ⟨fun a => a, 0⟩ 2 101 15 0 0 ⟨fun _ => 0, 0⟩ 30
      (by decide) (by decide) (by decide) (by decide) (by decide) (by decide)
      ⟨0, by decide, by decide, by decide⟩ (by decide)⟩

end Gcompat
